import Mathlib

/-!
# Verification of the xbvr-pmv matching pipeline

Shallow embedding, in Lean 4, of the PMV file-matching subsystem of the
repository (packages `pkg/tasks` — `pmv_match.go` — and `pkg/scrape` —
`pmvhaven.go`), together with proofs settling a list of claims about the
natural-language specification of that subsystem.

Conventions of the embedding:

* Go strings are `String` / `List Char`.  All strings handled by this
  subsystem are ASCII (filenames, queries, URLs), so the byte-wise Go
  operations (`strings.ToLower`, byte-wise `<` on strings, `len`) are
  modelled character-wise; for ASCII and for UTF-8 code-point ordering
  the two agree.
* Go `float64` scores are modelled by exact rationals `ℚ`.  The score
  arithmetic of this pipeline (`0.15 + 0.7*overlap + 0.2`, with
  `overlap = i/q` for small naturals `i ≤ q`) stays well inside the
  range where IEEE double rounding cannot change any of the comparisons
  performed, so the rational model is exact for the properties proved.
  Rationals are built with `mkRat` and bespoke `ratAdd`/`ratMul`
  wrappers, which the kernel can evaluate; lemmas bridge them to `+`/`*`.
* Fallible Go calls return `Option`/`Except`; the HTTP collaborators
  (resty client, goquery document parsing, gjson) are oracles supplied
  as explicit arguments: a fetch yields either a transport error or a
  status code plus the *already DOM-parsed* document model, since HTML
  tokenisation itself is done by the external goquery library.
* The database collaborators (`models.File`, `models.Scene`, gorm) are
  not part of `src/`; they are modelled from the spec (§3, §6) as an
  explicit state record, with fallibility injected through a fault
  record so that every failure path of the Go code is reachable.
-/

namespace XbvrPmv

/-! ## Character-level utilities (models of Go `strings`, `unicode`, `regexp`) -/

/-- Model of `unicode.IsSpace` restricted to the whitespace characters that can
actually occur in this pipeline (ASCII).  Used by `strings.Fields` and
`strings.TrimSpace`. -/
def isSpaceCh (c : Char) : Bool :=
  c = ' ' || c = '\t' || c = '\n' || c = '\r' || c = '\x0b' || c = '\x0c'

/-- Model of the Go regexp class `\s`, which is `[\t\n\f\r ]`. -/
def isRegexSpaceCh (c : Char) : Bool :=
  c = ' ' || c = '\t' || c = '\n' || c = '\r' || c = '\x0c'

def isDigitCh (c : Char) : Bool := '0' ≤ c && c ≤ '9'

def isLowerCh (c : Char) : Bool := 'a' ≤ c && c ≤ 'z'

def isUpperCh (c : Char) : Bool := 'A' ≤ c && c ≤ 'Z'

/-- Lowercase letter or digit. -/
def isLowerAlnumCh (c : Char) : Bool := isLowerCh c || isDigitCh c

/-- Model of `strings.ToLower` for the ASCII inputs of this pipeline. -/
def lowerCh (c : Char) : Char :=
  if isUpperCh c then Char.ofNat (c.toNat + 32) else c

def lowerChars (cs : List Char) : List Char := cs.map lowerCh

/-- Model of `strings.TrimSpace`. -/
def trimSpaceChars (cs : List Char) : List Char :=
  ((cs.dropWhile isSpaceCh).reverse.dropWhile isSpaceCh).reverse

/-- Accumulator pass of `fieldsChars`; `acc` holds the current token
reversed. -/
def fieldsAux : List Char → List Char → List (List Char)
  | [], acc => if acc = [] then [] else [acc.reverse]
  | c :: rest, acc =>
    if isSpaceCh c then
      if acc = [] then fieldsAux rest [] else acc.reverse :: fieldsAux rest []
    else fieldsAux rest (c :: acc)

/-- Model of `strings.Fields`: maximal runs of non-whitespace characters. -/
def fieldsChars (cs : List Char) : List (List Char) := fieldsAux cs []

/-- Model of `strings.Index`: index of the first occurrence of `needle` in
`hay`, as `Option`. -/
def findSubChars (needle : List Char) : List Char → Option Nat
  | [] => if needle = [] then some 0 else none
  | c :: rest =>
    if needle.isPrefixOf (c :: rest) then some 0
    else (findSubChars needle rest).map (· + 1)

/-- Model of `strings.Contains`. -/
def containsSubChars (hay needle : List Char) : Bool :=
  (findSubChars needle hay).isSome

/-- Join a list of character tokens with single spaces (`strings.Join` with
separator `" "`). -/
def joinSpaceChars : List (List Char) → List Char
  | [] => []
  | [t] => t
  | t :: rest => t ++ ' ' :: joinSpaceChars rest

end XbvrPmv

namespace XbvrPmv

/-! ## `normalizePMVQuery` (src/pkg/tasks/pmv_match.go, lines 198–261) -/

/-- Model of `filepath.Ext` + `strings.TrimSuffix(name, ext)`: drop the suffix
beginning at the final dot of the final path element, when there is one. -/
def stripExt (cs : List Char) : List Char :=
  let rev := cs.reverse
  let pre := rev.takeWhile (fun c => c ≠ '.' && c ≠ '/')
  match rev.drop pre.length with
  | '.' :: tail => tail.reverse
  | _ => cs

/-- Model of `regexp.ReplaceAllString` for the pattern `([a-z])([A-Z])` and the
replacement `"$1 $2"`: insert a space at each non-overlapping
lowercase→uppercase boundary, scanning left to right. -/
def camelSplit : List Char → List Char
  | [] => []
  | [c] => [c]
  | a :: b :: rest =>
    if isLowerCh a && isUpperCh b then a :: ' ' :: b :: camelSplit rest
    else a :: camelSplit (b :: rest)

/-- Character class `[_\-\s]` of the export-artifact suffix regex. -/
def isArtifactSepCh (c : Char) : Bool := c = '_' || c = '-' || isRegexSpaceCh c

/-- Whether a character-list suffix matches `[_\-\s]\d{10,}[_\-\s][a-z0-9]{6,}$`
in its entirety (the pattern is anchored at end of string; the digit run is
maximal because separators are not digits). -/
def matchesExportSuffix : List Char → Bool
  | [] => false
  | c :: rest =>
    isArtifactSepCh c &&
      (let digits := rest.takeWhile isDigitCh
       let afterDigits := rest.dropWhile isDigitCh
       decide (10 ≤ digits.length) &&
         match afterDigits with
         | [] => false
         | d :: tail =>
           isArtifactSepCh d && decide (6 ≤ tail.length) && tail.all isLowerAlnumCh)

/-- Index of the leftmost position whose suffix matches the export-artifact
pattern. -/
def exportSuffixStart : List Char → Option Nat
  | [] => none
  | c :: rest =>
    if matchesExportSuffix (c :: rest) then some 0
    else (exportSuffixStart rest).map (· + 1)

/-- Model of the export-artifact strip: replace the (unique, end-anchored)
match of the pattern modelled by `matchesExportSuffix` with the empty
string. -/
def stripExportArtifact (cs : List Char) : List Char :=
  match exportSuffixStart cs with
  | some i => cs.take i
  | none => cs

/-- The `"_-_"` channel delimiter rule of `normalizePMVQuery` (keep the text to
the right of the first occurrence when non-empty after trimming). -/
def stripUnderscoreChannel (cs : List Char) : List Char :=
  match findSubChars ['_', '-', '_'] cs with
  | some idx =>
    let right := trimSpaceChars (cs.drop (idx + 3))
    if right = [] then cs else right
  | none => cs

/-- The plain-dash separators tried, in order, by `normalizePMVQuery`:
`" - "`, `" – "` (en dash), `" — "` (em dash). -/
def dashSeps : List (List Char) := [[' ', '-', ' '], [' ', '–', ' '], [' ', '—', ' ']]

/-- One attempt of the `"channel - title"` rule for a single separator:
`some right` when the separator occurs at a positive index, the right side is
non-empty and the left side has at most two whitespace-delimited tokens. -/
def dashChannelSplit (cs sep : List Char) : Option (List Char) :=
  match findSubChars sep cs with
  | some idx =>
    if 0 < idx then
      let left := trimSpaceChars (cs.take idx)
      let right := trimSpaceChars (cs.drop (idx + sep.length))
      if right ≠ [] && (fieldsChars left).length ≤ 2 then some right else none
    else none
  | none => none

/-- Iterate `dashChannelSplit` over the separators, keeping the first success
(the Go loop `break`s after the first applied separator). -/
def stripDashChannelGo (cs : List Char) : List (List Char) → List Char
  | [] => cs
  | sep :: more =>
    match dashChannelSplit cs sep with
    | some right => right
    | none => stripDashChannelGo cs more

/-- The `"channel - title"` rule: for the first separator (in `dashSeps` order)
occurring at a positive index with non-empty right side and a left side of at
most two whitespace-delimited tokens, keep the right side. -/
def stripDashChannel (cs : List Char) : List Char :=
  stripDashChannelGo cs dashSeps

/-- Apostrophe character (written numerically). -/
def apoCh : Char := Char.ofNat 39

/-- Character filtering of `normalizePMVQuery`: `_ . - ( )` are replaced by
spaces, then every character outside `[a-z0-9\s']` is replaced by a space
(`regexp [^a-z0-9\s']+` — run-collapsing is irrelevant before
`strings.Fields`). -/
def scrubCh (c : Char) : Char :=
  if c = '_' || c = '.' || c = '-' || c = '(' || c = ')' then ' '
  else if isLowerAlnumCh c || isRegexSpaceCh c || c = apoCh then c
  else ' '

/-- The fixed noise-token set of `normalizePMVQuery` (resolution, frame-rate,
codec, container and layout tags). -/
def skipTokens : List String :=
  ["1080p", "1440p", "2160p", "4k", "5k", "6k", "8k",
   "fps", "60fps", "30fps", "4k60",
   "sbs", "tb", "lr", "vr",
   "mp4", "mkv", "avi", "mov", "wmv",
   "uhd", "hd", "fullhd", "hq",
   "h264", "h265", "x264", "x265", "264", "265",
   "2880p", "4320p", "upscale"]

/-- Model of `isLikelyNoiseToken` (src lines 335–379).  The Go float comparison
`float64(digits)/float64(len(tok)) >= 0.35` is modelled by
`100 * digits ≥ 35 * len`, which is exact for the token sizes reachable here
(the nearest double below 0.35 differs from 0.35 by less than 6e-17, and no
fraction with denominator below 2^50 falls in between). -/
def isLikelyNoiseToken (tok : List Char) : Bool :=
  let t := lowerChars (trimSpaceChars tok)
  if t = [] then false
  else
    let digits := (t.filter isDigitCh).length
    let letters := (t.filter isLowerCh).length
    let vowels := (t.filter (fun c =>
      c = 'a' || c = 'e' || c = 'i' || c = 'o' || c = 'u')).length
    if digits = t.length && 4 ≤ t.length then true
    else if 10 ≤ t.length && 0 < digits && 0 < letters then true
    else if 8 ≤ t.length && 3 ≤ digits && 3 ≤ letters &&
        (vowels = 0 || 100 * digits ≥ 35 * t.length) then true
    else false

/-- Model of `normalizePMVQuery` (src/pkg/tasks/pmv_match.go, lines 198–261). -/
def normalizePMVQuery (filename : String) : String :=
  let name0 := trimSpaceChars filename.data
  let name1 := stripExt name0
  let name2 := camelSplit name1
  let name3 := lowerChars name2
  let name4 := stripExportArtifact name3
  let name5 := stripUnderscoreChannel name4
  let name6 := stripDashChannel name5
  let name7 := trimSpaceChars (name6.map scrubCh)
  if name7 = [] then ""
  else
    let toks := fieldsChars name7
    let kept := toks.filter (fun t =>
      !(skipTokens.contains (String.mk t)) && !(isLikelyNoiseToken t))
    if kept = [] then String.mk (joinSpaceChars toks)
    else String.mk (joinSpaceChars kept)

end XbvrPmv

namespace XbvrPmv

/-! ## Kernel-evaluable rational arithmetic

`Rat.add`/`Rat.mul` are irreducible to the kernel, so the embedding computes
with `mkRat`-based wrappers and bridges them to `+`/`*` by the lemmas below. -/

/-- Kernel-evaluable rational addition. -/
def ratAdd (a b : ℚ) : ℚ :=
  mkRat (a.num * (b.den : Int) + b.num * (a.den : Int)) (a.den * b.den)

/-- Kernel-evaluable rational multiplication. -/
def ratMul (a b : ℚ) : ℚ := mkRat (a.num * b.num) (a.den * b.den)

theorem ratAdd_eq (a b : ℚ) : ratAdd a b = a + b := by
  rw [ratAdd, Rat.mkRat_eq_divInt]
  push_cast
  rw [← Rat.divInt_add_divInt a.num b.num (by exact_mod_cast a.den_nz)
      (by exact_mod_cast b.den_nz),
    Rat.num_divInt_den, Rat.num_divInt_den]

theorem ratMul_eq (a b : ℚ) : ratMul a b = a * b := (Rat.mul_eq_mkRat a b).symm

/-! ## Scorer / ranker (src/pkg/tasks/pmv_match.go, lines 381–407, 553–596) -/

/-- Model of `scrape.PMVHavenCandidate` (src/pkg/scrape/pmvhaven.go, lines 23–28). -/
structure PMVHavenCandidate where
  id : String
  title : String
  sceneURL : String
  thumbnailURL : String
deriving DecidableEq, Repr

/-- Model of `tasks.PMVMatchCandidate` (src/pkg/tasks/pmv_match.go, lines 23–31). -/
structure PMVMatchCandidate where
  rank : Nat
  pmvID : String
  title : String
  sceneURL : String
  thumbnailURL : String
  confidence : ℚ
  reason : String
deriving DecidableEq, Repr

/-- Character filtering of `tokenSet`: the regexp `[^a-z0-9\s]+` replaced by a
space (run-collapsing is irrelevant before `strings.Fields`). -/
def tokenScrubCh (c : Char) : Char :=
  if isLowerAlnumCh c || isRegexSpaceCh c then c else ' '

/-- Deduplication keeping first occurrences (the `map[string]bool` of
`tokenSet`; only membership and cardinality of the set are ever used). -/
def dedupStr (seen : List String) : List String → List String
  | [] => []
  | t :: rest =>
    if seen.contains t then dedupStr seen rest
    else t :: dedupStr (t :: seen) rest

/-- Model of `tokenSet` (src lines 553–564): lowercase, strip to
`[a-z0-9\s]`, split on whitespace, discard tokens shorter than 2, collect as a
set (here: a duplicate-free list). -/
def tokenSet (s : String) : List String :=
  dedupStr []
    (((fieldsChars ((lowerChars s.data).map tokenScrubCh)).filter
      (fun t => 2 ≤ t.length)).map String.mk)

/-- Model of `overlapScore` (src lines 566–577): `|a ∩ b| / |a|`, `0` when
either set is empty. -/
def overlapScore (a b : List String) : ℚ :=
  if a.length = 0 ∨ b.length = 0 then 0
  else mkRat ((a.filter b.contains).length : Int) a.length

/-- Model of `clampScore` (src lines 579–587). -/
def clampScore (v : ℚ) : ℚ := if v < 0 then 0 else if 1 < v then 1 else v

/-- Byte-lexicographic `<` on Go strings, modelled character-wise (UTF-8
byte order and code-point order agree). -/
def lexLtChars : List Char → List Char → Bool
  | [], [] => false
  | [], _ :: _ => true
  | _ :: _, [] => false
  | a :: as, b :: bs => if a < b then true else if b < a then false else lexLtChars as bs

/-- The comparator of `sortCandidates` (src lines 589–596), as the reflexive
total relation "sorts no later than": `pmvLeB a b` is the negation of Go's
`less(b, a)`. -/
def pmvLeB (a b : PMVMatchCandidate) : Bool :=
  if a.confidence = b.confidence then !(lexLtChars b.title.data a.title.data)
  else decide (b.confidence < a.confidence)

/-- Model of `sortCandidates` (src lines 589–596).  Go's `sort.Slice` promises
exactly a permutation of the input that is sorted with respect to the
comparator; `insertionSort` is one such refinement. -/
def sortCandidates (cs : List PMVMatchCandidate) : List PMVMatchCandidate :=
  cs.insertionSort (fun a b => pmvLeB a b = true)

/-- The candidate built for one search result inside
`scorePMVCandidatesByText` (src lines 384–403), before sorting. -/
def baselineCandidate (query : String) (c : PMVHavenCandidate) : PMVMatchCandidate :=
  let queryTokens := tokenSet query
  let titleTokens := tokenSet c.title
  let overlap := overlapScore queryTokens titleTokens
  let titleLower := lowerChars c.title.data
  let queryLower := lowerChars query.data
  let containsBonus : ℚ :=
    if queryLower ≠ [] ∧ containsSubChars titleLower queryLower = true then mkRat 1 5 else 0
  { rank := 0
    pmvID := c.id
    title := c.title
    sceneURL := c.sceneURL
    thumbnailURL := c.thumbnailURL
    confidence := clampScore (ratAdd (ratAdd (mkRat 3 20) (ratMul overlap (mkRat 7 10))) containsBonus)
    reason := "baseline text similarity" }

/-- Model of `scorePMVCandidatesByText` (src lines 381–407). -/
def scorePMVCandidatesByText (query : String) (candidates : List PMVHavenCandidate) :
    List PMVMatchCandidate :=
  sortCandidates (candidates.map (baselineCandidate query))

/-! ### Order lemmas for the ranking comparator -/

theorem lexLt_asymm : ∀ {a b : List Char},
    lexLtChars a b = true → lexLtChars b a = false
  | [], [], h => by simp [lexLtChars] at h
  | [], _ :: _, _ => by simp [lexLtChars]
  | _ :: _, [], h => by simp [lexLtChars] at h
  | x :: xs, y :: ys, h => by
    simp only [lexLtChars] at h ⊢
    by_cases h1 : x < y
    · rw [if_neg (lt_asymm h1), if_pos h1]
    · by_cases h2 : y < x
      · rw [if_neg h1, if_pos h2] at h; cases h
      · rw [if_neg h1, if_neg h2] at h
        rw [if_neg h2, if_neg h1]
        exact lexLt_asymm h

theorem lexLt_connex : ∀ {a b : List Char},
    lexLtChars a b = false → lexLtChars b a = false → a = b
  | [], [], _, _ => rfl
  | [], _ :: _, h, _ => by simp [lexLtChars] at h
  | _ :: _, [], _, h => by simp [lexLtChars] at h
  | x :: xs, y :: ys, h, h' => by
    simp only [lexLtChars] at h h'
    by_cases h1 : x < y
    · rw [if_pos h1] at h; cases h
    · by_cases h2 : y < x
      · rw [if_pos h2] at h'; cases h'
      · rw [if_neg h1, if_neg h2] at h
        rw [if_neg h2, if_neg h1] at h'
        have hxy : x = y := le_antisymm (not_lt.1 h2) (not_lt.1 h1)
        rw [hxy, lexLt_connex h h']

theorem lexLt_trans : ∀ {a b c : List Char},
    lexLtChars a b = true → lexLtChars b c = true → lexLtChars a c = true
  | [], b, c, h, h' => by
    cases c
    · cases b <;> simp [lexLtChars] at h h'
    · simp [lexLtChars]
  | _ :: _, [], _, h, _ => by simp [lexLtChars] at h
  | _ :: _, _ :: _, [], _, h' => by simp [lexLtChars] at h'
  | x :: xs, y :: ys, z :: zs, h, h' => by
    simp only [lexLtChars] at h h' ⊢
    by_cases h1 : x < y
    · by_cases h2 : y < z
      · rw [if_pos (lt_trans h1 h2)]
      · by_cases h3 : z < y
        · rw [if_neg h2, if_pos h3] at h'; cases h'
        · have hyz : y = z := le_antisymm (not_lt.1 h3) (not_lt.1 h2)
          rw [if_pos (hyz ▸ h1)]
    · by_cases h2 : y < x
      · rw [if_neg h1, if_pos h2] at h; cases h
      · have hxy : x = y := le_antisymm (not_lt.1 h2) (not_lt.1 h1)
        rw [if_neg h1, if_neg h2] at h
        subst hxy
        by_cases h3 : x < z
        · rw [if_pos h3]
        · by_cases h4 : z < x
          · rw [if_neg h3, if_pos h4] at h'; cases h'
          · rw [if_neg h3, if_neg h4] at h'
            rw [if_neg h3, if_neg h4]
            exact lexLt_trans h h'

theorem pmvLe_total (a b : PMVMatchCandidate) :
    pmvLeB a b = true ∨ pmvLeB b a = true := by
  unfold pmvLeB
  by_cases h : a.confidence = b.confidence
  · rw [if_pos h, if_pos h.symm]
    rcases Bool.eq_false_or_eq_true (lexLtChars b.title.data a.title.data) with hl | hl
    · right; rw [lexLt_asymm hl]; rfl
    · left; rw [hl]; rfl
  · rw [if_neg h, if_neg (Ne.symm h)]
    rcases lt_or_gt_of_ne h with hlt | hlt
    · right; simpa using hlt
    · left; simpa using hlt

theorem pmvLe_trans (a b c : PMVMatchCandidate) :
    pmvLeB a b = true → pmvLeB b c = true → pmvLeB a c = true := by
  unfold pmvLeB
  by_cases h1 : a.confidence = b.confidence
  · by_cases h2 : b.confidence = c.confidence
    · rw [if_pos h1, if_pos h2, if_pos (h1.trans h2)]
      simp only [Bool.not_eq_true']
      intro hab hbc
      rcases Bool.eq_false_or_eq_true (lexLtChars c.title.data a.title.data) with hl | hl
      · exfalso
        rcases Bool.eq_false_or_eq_true (lexLtChars b.title.data c.title.data) with hm | hm
        · have := lexLt_trans hm hl
          rw [this] at hab
          simp at hab
        · have hb : c.title.data = b.title.data := lexLt_connex hbc hm
          rw [hb] at hl
          rw [hab] at hl
          simp at hl
      · exact hl
    · rw [if_pos h1, if_neg h2, if_neg (fun hac => h2 (h1.symm.trans hac))]
      intro _ hbc
      rw [h1]
      exact hbc
  · by_cases h2 : b.confidence = c.confidence
    · rw [if_neg h1, if_pos h2, if_neg (fun hac => h1 (hac.trans h2.symm))]
      intro hab _
      rw [← h2]
      exact hab
    · rw [if_neg h1, if_neg h2]
      simp only [decide_eq_true_eq]
      intro hab hbc
      have hca : c.confidence < a.confidence := lt_trans hbc hab
      rw [if_neg (ne_of_lt hca).symm]
      simpa using hca

instance : IsTotal PMVMatchCandidate (fun a b => pmvLeB a b = true) := ⟨pmvLe_total⟩

instance : IsTrans PMVMatchCandidate (fun a b => pmvLeB a b = true) := ⟨pmvLe_trans⟩

/-- The ranking order the spec describes (§4.5): strictly greater confidence
first; on equal confidence, lexically smaller (not greater) title first. -/
def rankedLe (a b : PMVMatchCandidate) : Prop :=
  b.confidence < a.confidence ∨
    (a.confidence = b.confidence ∧ lexLtChars b.title.data a.title.data = false)

theorem rankedLe_iff (a b : PMVMatchCandidate) :
    pmvLeB a b = true ↔ rankedLe a b := by
  unfold pmvLeB rankedLe
  by_cases h : a.confidence = b.confidence
  · rw [if_pos h]
    simp only [Bool.not_eq_true']
    constructor
    · intro hl; exact Or.inr ⟨h, hl⟩
    · rintro (hlt | ⟨_, hl⟩)
      · exact absurd hlt (by rw [h]; exact lt_irrefl _)
      · exact hl
  · rw [if_neg h]
    simp only [decide_eq_true_eq]
    constructor
    · intro hlt; exact Or.inl hlt
    · rintro (hlt | ⟨heq, _⟩)
      · exact hlt
      · exact absurd heq h

end XbvrPmv

namespace XbvrPmv

/-! ### The spec-side confidence formula (claim C4) -/

/-- The confidence formula exactly as the spec states it (§4.5): clamp to
`[0,1]` of `0.15 + 0.7 × overlap + (0.2 when the raw lowercase title contains
the raw lowercase non-empty query)`, with
`overlap = |query tokens ∩ title tokens| / |query tokens|` (`0` when either
token set is empty). -/
def specConfidence (query title : String) : ℚ :=
  let qt := tokenSet query
  let tt := tokenSet title
  let overlap : ℚ :=
    if qt = [] ∨ tt = [] then 0
    else ((qt.filter tt.contains).length : ℚ) / (qt.length : ℚ)
  let bonus : ℚ :=
    if lowerChars query.data ≠ [] ∧
        containsSubChars (lowerChars title.data) (lowerChars query.data) = true
    then 1/5 else 0
  max 0 (min 1 (3/20 + 7/10 * overlap + bonus))

theorem mkRat_3_20 : (mkRat 3 20 : ℚ) = 3/20 := by
  rw [Rat.mkRat_eq_divInt, Rat.divInt_eq_div]; norm_num

theorem mkRat_7_10 : (mkRat 7 10 : ℚ) = 7/10 := by
  rw [Rat.mkRat_eq_divInt, Rat.divInt_eq_div]; norm_num

theorem mkRat_1_5 : (mkRat 1 5 : ℚ) = 1/5 := by
  rw [Rat.mkRat_eq_divInt, Rat.divInt_eq_div]; norm_num

theorem clampScore_eq (v : ℚ) : clampScore v = max 0 (min 1 v) := by
  unfold clampScore
  split_ifs with h1 h2
  · rw [min_eq_right (by linarith), max_eq_left (by linarith)]
  · rw [min_eq_left (by linarith), max_eq_right (by linarith)]
  · rw [min_eq_right (by linarith), max_eq_right (by linarith)]

theorem overlapScore_eq (a b : List String) :
    overlapScore a b =
      if a = [] ∨ b = [] then 0
      else ((a.filter b.contains).length : ℚ) / (a.length : ℚ) := by
  unfold overlapScore
  simp only [List.length_eq_zero]
  by_cases h : a = [] ∨ b = []
  · rw [if_pos h, if_pos h]
  · rw [if_neg h, if_neg h]
    rw [Rat.mkRat_eq_divInt, Rat.divInt_eq_div]
    push_cast
    ring

theorem baselineCandidate_confidence (query : String) (c : PMVHavenCandidate) :
    (baselineCandidate query c).confidence = specConfidence query c.title := by
  simp only [baselineCandidate, specConfidence]
  rw [ratAdd_eq, ratAdd_eq, ratMul_eq, clampScore_eq, overlapScore_eq,
    mkRat_3_20, mkRat_7_10, mkRat_1_5]
  ring_nf

/-- C4: for every query string and candidate list, the scorer assigns each
candidate the spec's confidence formula (clamp of
`0.15 + 0.7 × overlap + 0.2·contains-bonus`), producing exactly one scored
candidate per input, and the output is sorted descending by confidence with
ties broken by ascending lexical title order. -/
theorem claim_C4_scorer_formula_and_order (query : String) (cs : List PMVHavenCandidate) :
    (scorePMVCandidatesByText query cs).Perm (cs.map (baselineCandidate query)) ∧
    List.Sorted rankedLe (scorePMVCandidatesByText query cs) ∧
    ∀ c ∈ scorePMVCandidatesByText query cs,
      c.confidence = specConfidence query c.title := by
  refine ⟨List.perm_insertionSort _ _, ?_, ?_⟩
  · have h := List.sorted_insertionSort (fun a b => pmvLeB a b = true)
      (cs.map (baselineCandidate query))
    exact h.imp (fun hab => (rankedLe_iff _ _).1 hab)
  · intro c hc
    have hmem : c ∈ cs.map (baselineCandidate query) :=
      (List.perm_insertionSort _ _).mem_iff.1 hc
    obtain ⟨c0, _, rfl⟩ := List.mem_map.1 hmem
    exact baselineCandidate_confidence query c0

/-- The two-candidate fixture of `TestScorePMVCandidatesByText`. -/
def demoCands : List PMVHavenCandidate :=
  [⟨"a", "Random Compilation", "https://pmvhaven.com/random", ""⟩,
   ⟨"b", "Amazing Sunset Remix", "https://pmvhaven.com/amazing-sunset-remix", ""⟩]

/-- The scored candidate the pipeline produces for the matching fixture
title. -/
def demoTop : PMVMatchCandidate :=
  ⟨0, "b", "Amazing Sunset Remix", "https://pmvhaven.com/amazing-sunset-remix", "",
    1, "baseline text similarity"⟩

theorem claim_C4_witness :
    (scorePMVCandidatesByText "amazing sunset remix" demoCands).Perm
      (demoCands.map (baselineCandidate "amazing sunset remix")) ∧
    List.Sorted rankedLe (scorePMVCandidatesByText "amazing sunset remix" demoCands) ∧
    demoTop.confidence = specConfidence "amazing sunset remix" demoTop.title := by
  obtain ⟨h1, h2, h3⟩ := claim_C4_scorer_formula_and_order "amazing sunset remix" demoCands
  exact ⟨h1, h2, h3 demoTop (by decide)⟩

/-- C5: the two normalization examples of the spec (§8), also the fixtures of
`TestNormalizePMVQuery` and `TestNormalizePMVQuery_StripsChannelAndNoiseTokens`. -/
theorem claim_C5_normalizer_examples :
    normalizePMVQuery "My.Cool-Video_6k_60fps_vr_SBS.mp4" = "my cool video" ∧
    normalizePMVQuery "DigitalFiend_-_Super_Smash_Hoes_1771348033231_xl73j501.mp4" =
      "super smash hoes" := by
  constructor <;> decide

end XbvrPmv

namespace XbvrPmv

/-! ## URL helpers (src/pkg/scrape/pmvhaven.go, lines 534–647)

`net/url` is a standard-library collaborator; it is modelled for the URL
shapes this scraper handles: absolute `http(s)` URLs, protocol-relative
URLs, and site-relative path references (the parse-error path of `url.Parse`
is unreachable for these shapes and is not modelled). -/

def pmvHavenBaseURL : String := "https://pmvhaven.com"

/-- Model of `absoluteURL` (src lines 574–591). -/
def absoluteURL (raw : String) : String :=
  let r := trimSpaceChars raw.data
  if r = [] then ""
  else if ['/', '/'].isPrefixOf r then String.mk ('h' :: 't' :: 't' :: 'p' :: 's' :: ':' :: r)
  else if "http://".data.isPrefixOf r || "https://".data.isPrefixOf r then String.mk r
  else if containsSubChars r "://".data then String.mk r
  else if ['/'].isPrefixOf r then pmvHavenBaseURL ++ String.mk r
  else pmvHavenBaseURL ++ "/" ++ String.mk r

/-- Strip one trailing `/` (the `strings.TrimSuffix(u.Path, "/")` of
`canonicalSceneURL`; the path is the URL tail once query and fragment are
gone). -/
def trimTrailingSlash (cs : List Char) : List Char :=
  match cs.reverse with
  | '/' :: rest => rest.reverse
  | _ => cs

/-- Model of `canonicalSceneURL` (src lines 559–572): resolve to absolute,
drop fragment and query, strip a trailing slash. -/
def canonicalSceneURL (raw : String) : String :=
  if trimSpaceChars raw.data = [] then ""
  else
    let abs := (absoluteURL raw).data
    String.mk (trimTrailingSlash ((abs.takeWhile (· ≠ '#')).takeWhile (· ≠ '?')))

/-- The path component of a URL string: everything from the first `/` after
the `://` scheme separator (model of `url.Parse(...).Path` for the canonical
URLs of this scraper). -/
def pathOfURL (cs : List Char) : List Char :=
  match findSubChars "://".data cs with
  | some i => (cs.drop (i + 3)).dropWhile (· ≠ '/')
  | none => cs.dropWhile (· ≠ '/')

/-- Model of `strings.Trim(path, "/")`. -/
def trimSlashes (cs : List Char) : List Char :=
  ((cs.dropWhile (· = '/')).reverse.dropWhile (· = '/')).reverse

/-- The blocklist of non-content path patterns (src line 550). -/
def blockedSubs : List String :=
  ["/tag/", "/category/", "/author/", "/page/", "/wp-content/", "/feed", "?s="]

/-- Model of `looksLikeSceneURL` (src lines 534–557). -/
def looksLikeSceneURL (raw : String) : Bool :=
  let u := canonicalSceneURL raw
  if u = "" then false
  else
    let l := lowerChars u.data
    if !containsSubChars l "pmvhaven.com".data then false
    else if trimSlashes (pathOfURL l) = [] then false
    else !(blockedSubs.any (fun b => containsSubChars l b.data))

/-- Model of `path.Base`. -/
def pathBase (p : List Char) : List Char :=
  if p = [] then ['.']
  else
    let p2 := p.reverse.dropWhile (· = '/')
    if p2 = [] then ['/']
    else (p2.takeWhile (· ≠ '/')).reverse

def isHexCh (c : Char) : Bool := isDigitCh c || ('a' ≤ c && c ≤ 'f')

/-- The regex `_([a-f0-9]{24})$`: `some hex` when the string ends in an
underscore followed by exactly the final 24 characters, all lowercase hex. -/
def hex24Suffix (cs : List Char) : Option (List Char) :=
  let rev := cs.reverse
  let hex := rev.take 24
  if hex.length = 24 && hex.all isHexCh &&
      (match rev.drop 24 with | '_' :: _ => true | _ => false)
  then some hex.reverse else none

/-- The sanitisation regex `[^a-z0-9\-_]+` → `"-"` of `buildCandidateID`
(runs of disallowed characters collapse to a single hyphen).  The flag records
whether the previous character belonged to a collapsed run. -/
def sanitizeIdAux : Bool → List Char → List Char
  | _, [] => []
  | prevBad, c :: rest =>
    if isLowerAlnumCh c || c = '-' || c = '_' then c :: sanitizeIdAux false rest
    else if prevBad then sanitizeIdAux true rest
    else '-' :: sanitizeIdAux true rest

def trimHyphens (cs : List Char) : List Char :=
  ((cs.dropWhile (· = '-')).reverse.dropWhile (· = '-')).reverse

def toHexDigit (n : Nat) : Char :=
  if n < 10 then Char.ofNat (48 + n) else Char.ofNat (87 + n)

def toHexAux : Nat → Nat → List Char
  | 0, _ => []
  | k + 1, n => toHexDigit (n % 16) :: toHexAux k (n / 16)

/-- Modelled from the spec: §4.2 falls back to "a short hash of the canonical
URL" (`crypto/sha1`, first 12 hex digits, a standard-library collaborator).
Modelled as a deterministic 12-hex-digit fold of the URL; every claim depends
only on it being a pure function of the canonical URL. -/
def shortHash (s : String) : String :=
  let h := s.data.foldl (fun acc c => (acc * 131 + c.toNat) % (16 ^ 12)) 7
  String.mk (toHexAux 12 h).reverse

/-- Model of `buildCandidateID` (src lines 593–619). -/
def buildCandidateID (sceneURL : String) : String :=
  let canon := canonicalSceneURL sceneURL
  if canon = "" then ""
  else
    let base := trimSpaceChars (pathBase (pathOfURL canon.data))
    match hex24Suffix (lowerChars base) with
    | some hex => String.mk hex
    | none =>
      let base2 := trimHyphens (sanitizeIdAux false (lowerChars (trimSpaceChars base)))
      if base2 ≠ [] then String.mk base2
      else shortHash canon

/-- Model of `strings.TrimPrefix`. -/
def dropLeading (pfx cs : List Char) : List Char :=
  if pfx.isPrefixOf cs then cs.drop pfx.length else cs

/-- The regex `\s+[a-f0-9]{24}$` → `""` of `titleFromSceneURL`. -/
def stripHex24SpaceSuffix (cs : List Char) : List Char :=
  let rev := cs.reverse
  let hex := rev.take 24
  let rest := rev.drop 24
  if hex.length = 24 && hex.all isHexCh && (rest.takeWhile isRegexSpaceCh) ≠ []
  then (rest.dropWhile isRegexSpaceCh).reverse else cs

/-- Model of `titleFromSceneURL` (src lines 621–633). -/
def titleFromSceneURL (sceneURL : String) : String :=
  let canon := canonicalSceneURL sceneURL
  let base := trimSpaceChars (pathBase (pathOfURL canon.data))
  let base1 := dropLeading "video/".data base
  let base2 := base1.map (fun c => if c = '_' || c = '-' then ' ' else c)
  let base3 := stripHex24SpaceSuffix base2
  String.mk (joinSpaceChars (fieldsChars (trimSpaceChars base3)))

/-- Drop one matching suffix and re-trim (`strings.TrimSpace ∘ TrimSuffix`),
as `cleanPMVHavenTitle` does per site-name suffix. -/
def trimOneSuffix (suffix cs : List Char) : List Char :=
  if suffix.reverse.isPrefixOf cs.reverse then
    trimSpaceChars (cs.take (cs.length - suffix.length))
  else cs

/-- Model of `cleanPMVHavenTitle` (src lines 635–647); `html.UnescapeString`
is a collaborator applied before the document model is built. -/
def cleanPMVHavenTitle (raw : String) : String :=
  let title := trimSpaceChars raw.data
  if title = [] then ""
  else String.mk (trimOneSuffix " - PMVHaven".data (trimOneSuffix " | PMVHaven".data title))

end XbvrPmv

namespace XbvrPmv

/-! ## Search-HTML parser (src/pkg/scrape/pmvhaven.go, lines 209–374)

goquery (HTML tokenisation and CSS selection) is an external library; the
document model below carries what its selectors deliver, while every piece of
logic written in `pmvhaven.go` itself (URL acceptance, canonicalisation,
deduplication, limit handling, srcset splitting, title fallbacks, JSON-LD
candidate extraction) is embedded. -/

/-- An `<img>` element as the direct-link scan reads it (goquery attribute
lookups, already entity-unescaped and trimmed by `attrVal`). -/
structure ImgModel where
  dataSrc : String
  dataLazySrc : String
  dataOriginal : String
  src : String
  alt : String
  titleAttr : String
deriving DecidableEq, Repr

/-- One anchor matched by `a[href*="/video/"]`, in document order; `img` is
`a.Find("img").First()`, falling back to `a.Parent().Find("img").First()`. -/
structure AnchorModel where
  href : String
  titleAttr : String
  ariaLabel : String
  text : String
  img : Option ImgModel
deriving DecidableEq, Repr

/-- One container card of the card scan, reduced to the outputs of the three
pure goquery priority chains `firstAttr`/`firstText` the Go code runs over
it. -/
structure CardModel where
  sceneURL : String
  title : String
  thumbRaw : String
deriving DecidableEq, Repr

/-- One object node encountered by the gjson walk of a JSON-LD script, reduced
to the five fields the Go visitor reads. -/
structure JsonNodeModel where
  name : String
  url : String
  thumbnailUrl : String
  imageUrl : String
  image : String
deriving DecidableEq, Repr

/-- A search-results document after goquery parsing: the video anchors in
document order, the card lists of the six container selectors (in the fixed
selector order of src lines 336–343), and the JSON-LD scripts. -/
structure SearchDocModel where
  videoAnchors : List AnchorModel
  containerCards : List (List CardModel)
  jsonldScripts : List (List JsonNodeModel)
deriving DecidableEq, Repr

/-- Go `firstNonEmpty` (src lines 524–532). -/
def firstNonEmptyStr : List String → String
  | [] => ""
  | v :: rest =>
    let t := String.mk (trimSpaceChars v.data)
    if t ≠ "" then t else firstNonEmptyStr rest

/-- Parser accumulator: deduplication keys plus output so far. -/
structure ParseState where
  seen : List String
  out : List PMVHavenCandidate
deriving DecidableEq, Repr

/-- Model of the `addCandidate` closure (src lines 221–234): canonicalise,
resolve thumbnail, trim title, drop invalid/duplicate entries, report whether
the limit is reached. -/
def addCandidate (limit : Nat) (st : ParseState) (c : PMVHavenCandidate) :
    ParseState × Bool :=
  let sceneURL := canonicalSceneURL c.sceneURL
  let thumbnailURL := absoluteURL c.thumbnailURL
  let title := String.mk (trimSpaceChars c.title.data)
  if sceneURL = "" ∨ title = "" ∨ st.seen.contains sceneURL then (st, false)
  else
    let cid := if c.id = "" then buildCandidateID sceneURL else c.id
    let st' : ParseState :=
      ⟨sceneURL :: st.seen, st.out ++ [⟨cid, title, sceneURL, thumbnailURL⟩]⟩
    (st', decide (limit ≤ st'.out.length))

/-- The candidate the direct-link scan builds from one anchor (src lines
281–329); `none` when the href is not accepted as a scene URL. -/
def anchorCandidate (a : AnchorModel) : Option PMVHavenCandidate :=
  let sceneURL := String.mk (trimSpaceChars a.href.data)
  if !looksLikeSceneURL sceneURL then none
  else
    let title0 := firstNonEmptyStr
      [a.titleAttr, a.ariaLabel, String.mk (trimSpaceChars a.text.data)]
    let title1 :=
      if title0 = "" then
        match a.img with
        | some im => firstNonEmptyStr [im.alt, im.titleAttr]
        | none => ""
      else title0
    let title := if title1 = "" then titleFromSceneURL sceneURL else title1
    let thumb :=
      match a.img with
      | some im => firstNonEmptyStr [im.dataSrc, im.dataLazySrc, im.dataOriginal, im.src]
      | none => ""
    some ⟨buildCandidateID sceneURL, title, sceneURL, thumb⟩

/-- Strategy 1 (`EachWithBreak` over the video anchors). -/
def runAnchors (limit : Nat) : ParseState → List AnchorModel → ParseState
  | st, [] => st
  | st, a :: rest =>
    match anchorCandidate a with
    | none => runAnchors limit st rest
    | some c =>
      if (addCandidate limit st c).2 then (addCandidate limit st c).1
      else runAnchors limit (addCandidate limit st c).1 rest

/-- The candidate `parseCard` builds from one card (src lines 236–278),
including the srcset comma/space truncation. -/
def cardCandidate (card : CardModel) : Option PMVHavenCandidate :=
  if !looksLikeSceneURL card.sceneURL then none
  else
    let t0 := card.thumbRaw.data
    let thumb :=
      if containsSubChars t0 [','] then
        String.mk (trimSpaceChars ((trimSpaceChars (t0.takeWhile (· ≠ ','))).takeWhile (· ≠ ' ')))
      else card.thumbRaw
    some ⟨buildCandidateID card.sceneURL, card.title, card.sceneURL, thumb⟩

/-- Strategy 2, inner loop: one container selector's cards; the Bool is the
`stop` flag (the limit was hit). -/
def runCards (limit : Nat) : ParseState → List CardModel → ParseState × Bool
  | st, [] => (st, false)
  | st, card :: rest =>
    match cardCandidate card with
    | none => runCards limit st rest
    | some c =>
      if (addCandidate limit st c).2 then ((addCandidate limit st c).1, true)
      else runCards limit (addCandidate limit st c).1 rest

/-- Strategy 2, outer loop over the container selectors (src lines 344–356):
break on stop or once the limit is reached. -/
def runCardGroups (limit : Nat) : ParseState → List (List CardModel) → ParseState
  | st, [] => st
  | st, grp :: more =>
    if (runCards limit st grp).2 ∨ limit ≤ (runCards limit st grp).1.out.length
    then (runCards limit st grp).1
    else runCardGroups limit (runCards limit st grp).1 more

/-- Model of `parseJSONLDCandidates` (src lines 376–437) over the visited
object nodes of one script: per node, name/url pair with the thumbnail
priority `thumbnailUrl`, `image.url`, `image`; candidates filtered by
`looksLikeSceneURL` and deduplicated per script. -/
def jsonldCandidates : List String → List JsonNodeModel → List PMVHavenCandidate
  | _, [] => []
  | seen, n :: rest =>
    let title := String.mk (trimSpaceChars n.name.data)
    let sceneURL0 := String.mk (trimSpaceChars n.url.data)
    if title = "" ∧ sceneURL0 = "" then jsonldCandidates seen rest
    else
      let thumbnailURL :=
        if String.mk (trimSpaceChars n.thumbnailUrl.data) ≠ ""
        then String.mk (trimSpaceChars n.thumbnailUrl.data)
        else if String.mk (trimSpaceChars n.imageUrl.data) ≠ ""
        then String.mk (trimSpaceChars n.imageUrl.data)
        else String.mk (trimSpaceChars n.image.data)
      let sceneURL := canonicalSceneURL sceneURL0
      if sceneURL = "" ∨ seen.contains sceneURL ∨ !looksLikeSceneURL sceneURL then
        jsonldCandidates seen rest
      else
        ⟨buildCandidateID sceneURL, title, sceneURL, absoluteURL thumbnailURL⟩ ::
          jsonldCandidates (sceneURL :: seen) rest

/-- Feed a list of candidates to `addCandidate`, stopping at the limit (the
inner `for` of the JSON-LD strategy, src lines 364–368). -/
def addList (limit : Nat) : ParseState → List PMVHavenCandidate → ParseState × Bool
  | st, [] => (st, false)
  | st, c :: rest =>
    if (addCandidate limit st c).2 then ((addCandidate limit st c).1, true)
    else addList limit (addCandidate limit st c).1 rest

/-- Strategy 3 (`EachWithBreak` over JSON-LD scripts, src lines 358–371). -/
def runJsonld (limit : Nat) : ParseState → List (List JsonNodeModel) → ParseState
  | st, [] => st
  | st, nodes :: more =>
    if (addList limit st (jsonldCandidates [] nodes)).2
    then (addList limit st (jsonldCandidates [] nodes)).1
    else if limit ≤ (addList limit st (jsonldCandidates [] nodes)).1.out.length
    then (addList limit st (jsonldCandidates [] nodes)).1
    else runJsonld limit (addList limit st (jsonldCandidates [] nodes)).1 more

/-- Model of `ParsePMVHavenSearchHTML` (src lines 209–374). -/
def parsePMVHavenSearchHTML (doc : SearchDocModel) (limit0 : Int) :
    List PMVHavenCandidate :=
  let limit : Nat := if limit0 ≤ 0 then 5 else limit0.toNat
  let st1 := runAnchors limit ⟨[], []⟩ doc.videoAnchors
  if limit ≤ st1.out.length then st1.out
  else
    let st2 := runCardGroups limit st1 doc.containerCards
    let st3 := if st2.out.length < limit then runJsonld limit st2 doc.jsonldScripts else st2
    st3.out

end XbvrPmv

namespace XbvrPmv

/-! ### Parser invariants (claim C7) -/

/-- Invariant carried through every parser phase: the output respects the
limit, its canonical URLs are pairwise distinct, and every output URL has been
recorded in the deduplication set. -/
def stInv (limit : Nat) (st : ParseState) : Prop :=
  st.out.length ≤ limit ∧ (st.out.map (fun c => c.sceneURL)).Nodup ∧
    ∀ c ∈ st.out, st.seen.contains c.sceneURL = true

theorem stInv_start (limit : Nat) : stInv limit ⟨[], []⟩ :=
  ⟨Nat.zero_le _, List.nodup_nil, fun _ h => absurd h (List.not_mem_nil _)⟩

theorem addCandidate_inv {limit : Nat} {st : ParseState} (c : PMVHavenCandidate)
    (h : stInv limit st) (hlt : st.out.length < limit) :
    stInv limit (addCandidate limit st c).1 ∧
      ((addCandidate limit st c).2 = false →
        (addCandidate limit st c).1.out.length < limit) := by
  obtain ⟨hlen, hnd, hseen⟩ := h
  unfold addCandidate
  by_cases hrej : canonicalSceneURL c.sceneURL = "" ∨
      String.mk (trimSpaceChars c.title.data) = "" ∨
      st.seen.contains (canonicalSceneURL c.sceneURL) = true
  · rw [if_pos hrej]
    exact ⟨⟨hlen, hnd, hseen⟩, fun _ => hlt⟩
  · rw [if_neg hrej]
    push_neg at hrej
    obtain ⟨-, -, hnotseen⟩ := hrej
    refine ⟨⟨?_, ?_, ?_⟩, ?_⟩
    · simpa using hlt
    · rw [List.map_append, List.nodup_append]
      refine ⟨hnd, List.nodup_singleton _, ?_⟩
      intro u hu hu1
      simp only [List.map_cons, List.map_nil, List.mem_singleton] at hu1
      subst hu1
      obtain ⟨c', hc', hc'u⟩ := List.mem_map.1 hu
      rw [← hc'u] at hnotseen
      exact hnotseen (hseen c' hc')
    · intro c' hc'
      rcases List.mem_append.1 hc' with hin | hin
      · have := hseen c' hin
        simp only [List.contains_cons, this, Bool.or_true]
      · simp only [List.mem_singleton] at hin
        subst hin
        simp [List.contains_cons]
    · intro hfalse
      simp only [decide_eq_false_iff_not, not_le] at hfalse
      simpa using hfalse

theorem runAnchors_inv (limit : Nat) :
    ∀ (anchors : List AnchorModel) (st : ParseState),
      stInv limit st → st.out.length < limit →
      stInv limit (runAnchors limit st anchors)
  | [], st, h, _ => h
  | a :: rest, st, h, hlt => by
    unfold runAnchors
    match anchorCandidate a with
    | none => exact runAnchors_inv limit rest st h hlt
    | some c =>
      obtain ⟨h1, h2⟩ := addCandidate_inv c h hlt
      rcases Bool.eq_false_or_eq_true (addCandidate limit st c).2 with hstop | hstop
      · simp only [hstop, if_true]
        exact h1
      · simp only [hstop, Bool.false_eq_true, if_false]
        exact runAnchors_inv limit rest _ h1 (h2 hstop)

theorem runCards_inv (limit : Nat) :
    ∀ (grp : List CardModel) (st : ParseState),
      stInv limit st → st.out.length < limit →
      stInv limit (runCards limit st grp).1 ∧
        ((runCards limit st grp).2 = false →
          (runCards limit st grp).1.out.length < limit)
  | [], st, h, hlt => ⟨h, fun _ => hlt⟩
  | card :: rest, st, h, hlt => by
    unfold runCards
    match cardCandidate card with
    | none => exact runCards_inv limit rest st h hlt
    | some c =>
      obtain ⟨h1, h2⟩ := addCandidate_inv c h hlt
      rcases Bool.eq_false_or_eq_true (addCandidate limit st c).2 with hstop | hstop
      · simp only [hstop, if_true]
        exact ⟨h1, fun hc => by cases hc⟩
      · simp only [hstop, Bool.false_eq_true, if_false]
        exact runCards_inv limit rest _ h1 (h2 hstop)

theorem runCardGroups_inv (limit : Nat) :
    ∀ (groups : List (List CardModel)) (st : ParseState),
      stInv limit st → st.out.length < limit →
      stInv limit (runCardGroups limit st groups)
  | [], _, h, _ => h
  | grp :: more, st, h, hlt => by
    unfold runCardGroups
    obtain ⟨h1, h2⟩ := runCards_inv limit grp st h hlt
    by_cases hc : (runCards limit st grp).2 = true ∨ limit ≤ (runCards limit st grp).1.out.length
    · rw [if_pos hc]
      exact h1
    · rw [if_neg hc]
      push_neg at hc
      exact runCardGroups_inv limit more _ h1 (h2 (by simpa using hc.1))

theorem addList_inv (limit : Nat) :
    ∀ (cs : List PMVHavenCandidate) (st : ParseState),
      stInv limit st → st.out.length < limit →
      stInv limit (addList limit st cs).1 ∧
        ((addList limit st cs).2 = false →
          (addList limit st cs).1.out.length < limit)
  | [], st, h, hlt => ⟨h, fun _ => hlt⟩
  | c :: rest, st, h, hlt => by
    unfold addList
    obtain ⟨h1, h2⟩ := addCandidate_inv c h hlt
    rcases Bool.eq_false_or_eq_true (addCandidate limit st c).2 with hstop | hstop
    · simp only [hstop, if_true]
      exact ⟨h1, fun hc => by cases hc⟩
    · simp only [hstop, Bool.false_eq_true, if_false]
      exact addList_inv limit rest _ h1 (h2 hstop)

theorem runJsonld_inv (limit : Nat) :
    ∀ (scripts : List (List JsonNodeModel)) (st : ParseState),
      stInv limit st → st.out.length < limit →
      stInv limit (runJsonld limit st scripts)
  | [], _, h, _ => h
  | nodes :: more, st, h, hlt => by
    unfold runJsonld
    obtain ⟨h1, h2⟩ := addList_inv limit (jsonldCandidates [] nodes) st h hlt
    rcases Bool.eq_false_or_eq_true (addList limit st (jsonldCandidates [] nodes)).2 with
      hstop | hstop
    · simp only [hstop, if_true]
      exact h1
    · simp only [hstop, Bool.false_eq_true, if_false]
      by_cases hl : limit ≤ (addList limit st (jsonldCandidates [] nodes)).1.out.length
      · rw [if_pos hl]; exact h1
      · rw [if_neg hl]
        exact runJsonld_inv limit more _ h1 (h2 hstop)

/-- C7 (amended): for every document model and every positive `maxCount`, the
parser returns at most `maxCount` candidates, and no two returned candidates
share the same canonical detail URL.  (The parser is a pure function of its
two arguments, so determinism on identical input holds by definition.) -/
theorem claim_C7_parser_bound_dedup (doc : SearchDocModel) (limit0 : Int)
    (h : 0 < limit0) :
    (parsePMVHavenSearchHTML doc limit0).length ≤ limit0.toNat ∧
    ((parsePMVHavenSearchHTML doc limit0).map (fun c => c.sceneURL)).Nodup := by
  unfold parsePMVHavenSearchHTML
  rw [if_neg (by omega : ¬ limit0 ≤ 0)]
  have hpos : 0 < limit0.toNat := by omega
  have h1 := runAnchors_inv limit0.toNat doc.videoAnchors ⟨[], []⟩
    (stInv_start _) (by simpa using hpos)
  by_cases hc : limit0.toNat ≤ (runAnchors limit0.toNat ⟨[], []⟩ doc.videoAnchors).out.length
  · rw [if_pos hc]
    exact ⟨h1.1, h1.2.1⟩
  · rw [if_neg hc]
    push_neg at hc
    have h2 := runCardGroups_inv limit0.toNat doc.containerCards _ h1 hc
    dsimp only
    by_cases hc2 : (runCardGroups limit0.toNat
        (runAnchors limit0.toNat ⟨[], []⟩ doc.videoAnchors) doc.containerCards).out.length <
        limit0.toNat
    · rw [if_pos hc2]
      have h3 := runJsonld_inv limit0.toNat doc.jsonldScripts _ h2 hc2
      exact ⟨h3.1, h3.2.1⟩
    · rw [if_neg hc2]
      exact ⟨h2.1, h2.2.1⟩

/-- A one-candidate document (the first Nuxt-anchor fixture of
`TestParsePMVHavenSearchHTML_NuxtVideoLinks`). -/
def oneAnchorDoc : SearchDocModel :=
  ⟨[⟨"/video/gooning-is-healthy_673a8cccaa8d005d3a4d0ae8?from=search", "", "", "",
      some ⟨"", "", "",
        "https://video.pmvhaven.com/thumbnails/673a8cccaa8d005d3a4d0ae8/thumb_lg.webp",
        "Gooning Is Healthy", ""⟩⟩],
    [[], [], [], [], [], []], []⟩

/-- C7 counterexample to the claim as stated: for `maxCount = 0` the parser
normalises the limit to 5 and can return more than `maxCount` candidates. -/
theorem claim_C7_counterexample :
    ¬ ((parsePMVHavenSearchHTML oneAnchorDoc 0).length ≤ (0 : Int).toNat) := by
  decide

theorem claim_C7_witness :
    (parsePMVHavenSearchHTML oneAnchorDoc 5).length ≤ (5 : Int).toNat ∧
    ((parsePMVHavenSearchHTML oneAnchorDoc 5).map (fun c => c.sceneURL)).Nodup :=
  claim_C7_parser_bound_dedup oneAnchorDoc 5 (by decide)

end XbvrPmv

namespace XbvrPmv

/-! ## Search client (src/pkg/scrape/pmvhaven.go, lines 106–173)

The resty HTTP client is an oracle: fetching a URL either fails in transport
or yields a status code and the goquery-parsed body.  (`dumpPMVHavenHTML`
only writes debug files and its error is logged and ignored, so it has no
observable effect here.) -/

/-- The error values `SearchPMVHaven` can return: a transport error from the
client, or the `pmvhaven search failed with status %d` error. -/
inductive SearchErr where
  | transport
  | status (code : Nat)
deriving DecidableEq, Repr

inductive FetchOutcome where
  | transportErr
  | response (status : Nat) (doc : SearchDocModel)

structure SearchEnv where
  fetch : String → FetchOutcome

def toUpperHexDigit (n : Nat) : Char :=
  if n < 10 then Char.ofNat (48 + n) else Char.ofNat (55 + n)

/-- Model of `url.QueryEscape` (standard-library collaborator) for ASCII
input. -/
def queryEscapeCh (c : Char) : List Char :=
  if isLowerCh c || isUpperCh c || isDigitCh c || c = '-' || c = '_' || c = '.' || c = '~'
  then [c]
  else if c = ' ' then ['+']
  else ['%', toUpperHexDigit (c.toNat / 16 % 16), toUpperHexDigit (c.toNat % 16)]

def queryEscape (s : String) : String := String.mk (s.data.map queryEscapeCh).flatten

/-- The single query-URL variant built by `SearchPMVHaven` (src lines
107–110). -/
def pmvSearchURL (query : String) : String :=
  pmvHavenBaseURL ++ "/search?q=" ++ queryEscape (String.mk (trimSpaceChars query.data))

def searchURLsFor (query : String) : List String := [pmvSearchURL query]

/-- The merge loop of `SearchPMVHaven` (src lines 148–157): cap at `limit`,
deduplicate across variants by canonical scene URL. -/
def mergeCands (limit : Int) :
    List String → List PMVHavenCandidate → List PMVHavenCandidate →
    List String × List PMVHavenCandidate
  | seen, acc, [] => (seen, acc)
  | seen, acc, c :: rest =>
    if limit ≤ (acc.length : Int) then (seen, acc)
    else if seen.contains c.sceneURL then mergeCands limit seen acc rest
    else mergeCands limit (c.sceneURL :: seen) (acc ++ [c]) rest

/-- The variant loop of `SearchPMVHaven` (src lines 121–161): per URL record
transport/status failures into `lastErr` and continue, on success parse and
merge, breaking once `limit` is reached. -/
def searchLoop (env : SearchEnv) (limit : Int) :
    List String → Option SearchErr → List String → List PMVHavenCandidate →
    Option SearchErr × List PMVHavenCandidate
  | [], lastErr, _, acc => (lastErr, acc)
  | u :: rest, lastErr, seen, acc =>
    match env.fetch u with
    | .transportErr => searchLoop env limit rest (some .transport) seen acc
    | .response status doc =>
      if status < 200 ∨ 300 ≤ status then
        searchLoop env limit rest (some (.status status)) seen acc
      else
        if limit ≤
            (((mergeCands limit seen acc (parsePMVHavenSearchHTML doc limit)).2.length : Int))
        then (lastErr, (mergeCands limit seen acc (parsePMVHavenSearchHTML doc limit)).2)
        else
          searchLoop env limit rest lastErr
            (mergeCands limit seen acc (parsePMVHavenSearchHTML doc limit)).1
            (mergeCands limit seen acc (parsePMVHavenSearchHTML doc limit)).2

/-- Model of `SearchPMVHaven` (src lines 106–173): merged candidates with a
`none` error whenever anything was found, the last recorded error only when
nothing was found and some variant failed, and `([], none)` when every
variant succeeded but found nothing. -/
def searchPMVHaven (env : SearchEnv) (query : String) (limit : Int) :
    List PMVHavenCandidate × Option SearchErr :=
  let r := searchLoop env limit (searchURLsFor query) none [] []
  if 0 < r.2.length then (r.2, none)
  else
    match r.1 with
    | some e => ([], some e)
    | none => ([], none)

/-- C6: the search client returns candidates with a nil error whenever
anything was found; it returns an error only when nothing was found and the
(only) query-URL variant failed in transport or with a non-2xx status, the
error being that failure; and an all-success empty parse yields the valid
`([], none)` outcome. -/
theorem searchPMVHaven_transport (env : SearchEnv) (query : String) (limit : Int)
    (h : env.fetch (pmvSearchURL query) = .transportErr) :
    searchPMVHaven env query limit = ([], some .transport) := by
  unfold searchPMVHaven searchURLsFor
  rw [searchLoop, h]
  rw [searchLoop]
  rfl

theorem searchPMVHaven_badStatus (env : SearchEnv) (query : String) (limit : Int)
    (s : Nat) (doc : SearchDocModel)
    (h : env.fetch (pmvSearchURL query) = .response s doc) (hbad : s < 200 ∨ 300 ≤ s) :
    searchPMVHaven env query limit = ([], some (.status s)) := by
  unfold searchPMVHaven searchURLsFor
  rw [searchLoop, h]
  dsimp only
  rw [if_pos hbad, searchLoop]
  rfl

theorem searchPMVHaven_ok (env : SearchEnv) (query : String) (limit : Int)
    (s : Nat) (doc : SearchDocModel)
    (h : env.fetch (pmvSearchURL query) = .response s doc) (hgood : ¬(s < 200 ∨ 300 ≤ s)) :
    searchPMVHaven env query limit =
      (if 0 < (mergeCands limit [] [] (parsePMVHavenSearchHTML doc limit)).2.length
       then ((mergeCands limit [] [] (parsePMVHavenSearchHTML doc limit)).2, none)
       else ([], none)) := by
  unfold searchPMVHaven searchURLsFor
  rw [searchLoop, h]
  dsimp only
  rw [if_neg hgood]
  by_cases hlim : limit ≤
      (((mergeCands limit [] [] (parsePMVHavenSearchHTML doc limit)).2.length : Int))
  · rw [if_pos hlim]
  · rw [if_neg hlim, searchLoop]

/-- C6: the search client returns candidates with a nil error whenever
anything was found; it returns an error only when nothing was found and the
(only) query-URL variant failed in transport or with a non-2xx status, the
error being that failure; and an all-success empty parse yields the valid
`([], none)` outcome. -/
theorem claim_C6_search_error_semantics (env : SearchEnv) (query : String) (limit : Int) :
    ((searchPMVHaven env query limit).1 ≠ [] → (searchPMVHaven env query limit).2 = none) ∧
    ((searchPMVHaven env query limit).2 ≠ none →
      (searchPMVHaven env query limit).1 = [] ∧
      (match env.fetch (pmvSearchURL query) with
       | .transportErr => (searchPMVHaven env query limit).2 = some .transport
       | .response s _ =>
         (s < 200 ∨ 300 ≤ s) ∧ (searchPMVHaven env query limit).2 = some (.status s))) ∧
    (∀ s doc, env.fetch (pmvSearchURL query) = .response s doc → 200 ≤ s → s < 300 →
      parsePMVHavenSearchHTML doc limit = [] →
      searchPMVHaven env query limit = ([], none)) := by
  cases hfetch : env.fetch (pmvSearchURL query) with
  | transportErr =>
    have hr := searchPMVHaven_transport env query limit hfetch
    refine ⟨?_, ?_, ?_⟩
    · intro hne
      rw [hr] at hne
      exact absurd rfl hne
    · intro _
      rw [hr]
      exact ⟨rfl, rfl⟩
    · intro s doc hresp
      cases hresp
  | response s doc =>
    by_cases hbad : s < 200 ∨ 300 ≤ s
    · have hr := searchPMVHaven_badStatus env query limit s doc hfetch hbad
      refine ⟨?_, ?_, ?_⟩
      · intro hne
        rw [hr] at hne
        exact absurd rfl hne
      · intro _
        rw [hr]
        exact ⟨rfl, hbad, rfl⟩
      · intro s' doc' hresp h2 h3 _
        cases hresp
        exact absurd hbad (by omega)
    · have hr := searchPMVHaven_ok env query limit s doc hfetch hbad
      refine ⟨?_, ?_, ?_⟩
      · intro _
        rw [hr]
        by_cases h0 :
            0 < (mergeCands limit [] [] (parsePMVHavenSearchHTML doc limit)).2.length
        · rw [if_pos h0]
        · rw [if_neg h0]
      · intro hne
        exfalso
        rw [hr] at hne
        by_cases h0 :
            0 < (mergeCands limit [] [] (parsePMVHavenSearchHTML doc limit)).2.length
        · rw [if_pos h0] at hne; exact hne rfl
        · rw [if_neg h0] at hne; exact hne rfl
      · intro s' doc' hresp _ _ hparse
        cases hresp
        rw [hr, hparse]
        rw [mergeCands]
        rw [if_neg (by simp)]

/-- A search environment for the witness: the single search URL answers with
status 200 and the one-anchor document. -/
def okSearchEnv : SearchEnv :=
  ⟨fun _ => .response 200 oneAnchorDoc⟩

theorem claim_C6_witness :
    ((searchPMVHaven okSearchEnv "gooning" 5).1 ≠ [] →
      (searchPMVHaven okSearchEnv "gooning" 5).2 = none) ∧
    (searchPMVHaven okSearchEnv "gooning" 5).1 ≠ [] ∧
    (searchPMVHaven okSearchEnv "gooning" 5).2 = none := by
  obtain ⟨h1, -, -⟩ := claim_C6_search_error_semantics okSearchEnv "gooning" 5
  refine ⟨h1, ?_, ?_⟩
  · decide
  · exact h1 (by decide)

end XbvrPmv

namespace XbvrPmv

/-! ## Enrichment stage (src/pkg/scrape/pmvhaven.go, lines 30–104) -/

inductive EnrichErr where
  | invalidURL
  | transport
  | badStatus (code : Nat)
deriving DecidableEq, Repr

/-- A scene detail page after goquery parsing: the meta/poster/title values
the extraction chains read, and the JSON-LD scripts. -/
structure SceneDocModel where
  ogImage : String
  twitterImage : String
  videoPoster : String
  ogTitle : String
  twitterTitle : String
  titleTag : String
  jsonldScripts : List (List JsonNodeModel)
deriving DecidableEq, Repr

inductive SceneFetchOutcome where
  | transportErr
  | response (status : Nat) (doc : SceneDocModel)

structure EnrichEnv where
  fetch : String → SceneFetchOutcome

/-- Per-node thumbnail priority of `parseJSONLDThumbnail` (src lines
439–474): `thumbnailUrl`, then `image.url`, then `image`. -/
def jsonldThumbNodes : List JsonNodeModel → String
  | [] => ""
  | n :: rest =>
    let v := firstNonEmptyStr [n.thumbnailUrl, n.imageUrl, n.image]
    if v ≠ "" then v else jsonldThumbNodes rest

/-- First script that yields a JSON-LD thumbnail (src lines 76–83). -/
def jsonldThumbScripts : List (List JsonNodeModel) → String
  | [] => ""
  | s :: rest =>
    let t := jsonldThumbNodes s
    if t ≠ "" then t else jsonldThumbScripts rest

/-- Model of `ParsePMVHavenSceneHTMLForThumbnail` (src lines 61–88). -/
def parsePMVHavenSceneHTMLForThumbnail (doc : SceneDocModel) : String :=
  let thumb := firstNonEmptyStr [doc.ogImage, doc.twitterImage, doc.videoPoster]
  if thumb ≠ "" then absoluteURL thumb
  else
    let t := jsonldThumbScripts doc.jsonldScripts
    if t ≠ "" then absoluteURL t else ""

/-- Model of `ParsePMVHavenSceneHTMLForTitle` (src lines 90–104). -/
def parsePMVHavenSceneHTMLForTitle (doc : SceneDocModel) : String :=
  let t0 := firstNonEmptyStr [doc.ogTitle, doc.twitterTitle]
  let t1 := if t0 = "" then String.mk (trimSpaceChars doc.titleTag.data) else t0
  cleanPMVHavenTitle t1

/-- Model of `EnrichPMVHavenCandidateThumbnail` (src lines 30–59). -/
def enrichPMVHavenCandidateThumbnail (env : EnrichEnv) (c : PMVHavenCandidate) :
    PMVHavenCandidate × Option EnrichErr :=
  let sceneURL := canonicalSceneURL c.sceneURL
  if sceneURL = "" then (c, some .invalidURL)
  else
    match env.fetch sceneURL with
    | .transportErr => (c, some .transport)
    | .response status doc =>
      if status < 200 ∨ 300 ≤ status then (c, some (.badStatus status))
      else
        let c1 :=
          if parsePMVHavenSceneHTMLForThumbnail doc ≠ ""
          then { c with thumbnailURL := parsePMVHavenSceneHTMLForThumbnail doc } else c
        let c2 :=
          if parsePMVHavenSceneHTMLForTitle doc ≠ ""
          then { c1 with title := parsePMVHavenSceneHTMLForTitle doc } else c1
        (c2, none)

/-- C8: whenever the detail-page fetch fails — invalid/empty canonical URL,
transport error, or non-2xx status — enrichment returns the candidate it was
given with every field unchanged, together with a non-nil error (and each of
those three failures does produce an error). -/
theorem claim_C8_enrich_failure_preserves (env : EnrichEnv) (c : PMVHavenCandidate) :
    ((enrichPMVHavenCandidateThumbnail env c).2 ≠ none →
      (enrichPMVHavenCandidateThumbnail env c).1 = c) ∧
    (canonicalSceneURL c.sceneURL = "" →
      (enrichPMVHavenCandidateThumbnail env c).2 = some .invalidURL) ∧
    (canonicalSceneURL c.sceneURL ≠ "" →
      (env.fetch (canonicalSceneURL c.sceneURL) = .transportErr →
        (enrichPMVHavenCandidateThumbnail env c).2 = some .transport) ∧
      (∀ s doc, env.fetch (canonicalSceneURL c.sceneURL) = .response s doc →
        (s < 200 ∨ 300 ≤ s) →
        (enrichPMVHavenCandidateThumbnail env c).2 = some (.badStatus s))) := by
  unfold enrichPMVHavenCandidateThumbnail
  by_cases hurl : canonicalSceneURL c.sceneURL = ""
  · rw [if_pos hurl]
    exact ⟨fun _ => rfl, fun _ => rfl, fun hne => absurd hurl hne⟩
  · rw [if_neg hurl]
    cases hfetch : env.fetch (canonicalSceneURL c.sceneURL) with
    | transportErr =>
      exact ⟨fun _ => rfl, fun heq => absurd heq hurl,
        fun _ => ⟨fun _ => rfl, fun s doc hresp _ => by cases hresp⟩⟩
    | response s doc =>
      dsimp only
      by_cases hbad : s < 200 ∨ 300 ≤ s
      · rw [if_pos hbad]
        refine ⟨fun _ => rfl, fun heq => absurd heq hurl, fun _ => ⟨?_, ?_⟩⟩
        · intro habs
          cases habs
        · intro s' doc' hresp _
          cases hresp
          rfl
      · rw [if_neg hbad]
        refine ⟨?_, fun heq => absurd heq hurl, fun _ => ⟨?_, ?_⟩⟩
        · intro hne
          exact absurd rfl hne
        · intro habs
          cases habs
        · intro s' doc' hresp hbad'
          cases hresp
          exact absurd hbad' hbad

/-- An enrichment environment whose every fetch fails with status 404. -/
def failEnrichEnv : EnrichEnv := ⟨fun _ => .response 404 ⟨"", "", "", "", "", "", []⟩⟩

/-- The candidate of the enrichment witness. -/
def enrichCand : PMVHavenCandidate :=
  ⟨"673a8cccaa8d005d3a4d0ae8", "Gooning Is Healthy",
    "https://pmvhaven.com/video/gooning-is-healthy_673a8cccaa8d005d3a4d0ae8", ""⟩

theorem claim_C8_witness :
    (enrichPMVHavenCandidateThumbnail failEnrichEnv enrichCand).1 = enrichCand ∧
    (enrichPMVHavenCandidateThumbnail failEnrichEnv enrichCand).2 =
      some (.badStatus 404) := by
  obtain ⟨h1, -, h3⟩ := claim_C8_enrich_failure_preserves failEnrichEnv enrichCand
  refine ⟨h1 ?_, ?_⟩
  · decide
  · exact (h3 (by decide)).2 404 ⟨"", "", "", "", "", "", []⟩ rfl (by decide)

end XbvrPmv

namespace XbvrPmv

/-! ## Custom scene identifiers (src/pkg/tasks/pmv_match.go, lines 749–751) -/

def digitCh (n : Nat) : Char := Char.ofNat (48 + n)

/-- Decimal digits of `n`, big-endian (model of `fmt.Sprintf("%d", n)`,
standard-library collaborator).  The fuel argument makes the recursion
structural; `n + 1` is always enough fuel. -/
def natDecChars : Nat → Nat → List Char
  | 0, _ => []
  | fuel + 1, n =>
    if n < 10 then [digitCh n]
    else natDecChars fuel (n / 10) ++ [digitCh (n % 10)]

def natDec (n : Nat) : String := String.mk (natDecChars (n + 1) n)

/-- Model of `buildPMVCustomSceneID` (src lines 749–751). -/
def buildPMVCustomSceneID (fileID : Nat) : String :=
  "custom-pmv-" ++ natDec fileID

/-- Decimal valuation, the left inverse of `natDecChars`. -/
def decVal (cs : List Char) : Nat :=
  cs.foldl (fun acc c => acc * 10 + (c.toNat - 48)) 0

theorem digitCh_toNat (d : Nat) (h : d < 10) : (digitCh d).toNat = 48 + d := by
  interval_cases d <;> rfl

theorem decVal_append_digit (xs : List Char) (c : Char) :
    decVal (xs ++ [c]) = decVal xs * 10 + (c.toNat - 48) := by
  unfold decVal
  rw [List.foldl_append]
  rfl

theorem natDecChars_fuel_irrel : ∀ fuel fuel' n, n < fuel → n < fuel' →
    natDecChars fuel n = natDecChars fuel' n
  | 0, _, n, h, _ => absurd h (Nat.not_lt_zero n)
  | _ + 1, 0, n, _, h' => absurd h' (Nat.not_lt_zero n)
  | fuel + 1, fuel' + 1, n, h, h' => by
    unfold natDecChars
    by_cases h10 : n < 10
    · rw [if_pos h10, if_pos h10]
    · rw [if_neg h10, if_neg h10]
      have hd : n / 10 < n := Nat.div_lt_self (by omega) (by omega)
      rw [natDecChars_fuel_irrel fuel fuel' (n / 10) (by omega) (by omega)]

theorem decVal_natDecChars : ∀ fuel n, n < fuel → decVal (natDecChars fuel n) = n
  | 0, n, h => absurd h (Nat.not_lt_zero n)
  | fuel + 1, n, h => by
    unfold natDecChars
    by_cases h10 : n < 10
    · rw [if_pos h10]
      unfold decVal
      simp only [List.foldl_cons, List.foldl_nil]
      rw [digitCh_toNat n h10]
      omega
    · rw [if_neg h10]
      have hd : n / 10 < n := Nat.div_lt_self (by omega) (by omega)
      rw [decVal_append_digit, decVal_natDecChars fuel (n / 10) (by omega),
        digitCh_toNat (n % 10) (Nat.mod_lt n (by omega))]
      omega

theorem natDec_injective (m n : Nat) (h : natDec m = natDec n) : m = n := by
  have hm : decVal (natDecChars (m + 1) m) = m := decVal_natDecChars _ _ (by omega)
  have hn : decVal (natDecChars (n + 1) n) = n := decVal_natDecChars _ _ (by omega)
  have hdata : natDecChars (m + 1) m = natDecChars (n + 1) n := by
    have := congrArg String.data h
    simpa [natDec] using this
  rw [← hm, ← hn, hdata]

theorem buildPMVCustomSceneID_injective (m n : Nat)
    (h : buildPMVCustomSceneID m = buildPMVCustomSceneID n) : m = n := by
  apply natDec_injective
  have hdata := congrArg String.data h
  simp only [buildPMVCustomSceneID, String.data_append] at hdata
  have : (natDec m).data = (natDec n).data := List.append_cancel_left hdata
  cases hm : natDec m with
  | mk dm =>
    cases hn : natDec n with
    | mk dn =>
      rw [hm, hn] at this
      simpa [hm, hn] using congrArg String.mk this

end XbvrPmv

namespace XbvrPmv

/-! ## Studio inference (src/pkg/tasks/pmv_match.go, lines 409–475) -/

/-- Model of `strings.Trim` with an arbitrary cutset. -/
def trimCutset (cutset cs : List Char) : List Char :=
  ((cs.dropWhile cutset.contains).reverse.dropWhile cutset.contains).reverse

/-- Model of `cleanStudioToken` (src lines 452–475). -/
def cleanStudioToken (s : String) : String :=
  let s1 := trimSpaceChars s.data
  let s2 := trimCutset "[]()\x7b\x7d-_.,:; ".data s1
  let s3 := s2.map (fun c => if c = '_' ∨ c = '.' then ' ' else c)
  let s4 := joinSpaceChars (fieldsChars s3)
  if s4 = [] then ""
  else if 64 < s4.length then ""
  else if s4.any (fun c => isLowerCh c || isUpperCh c) then String.mk s4
  else ""

/-- Model of `strings.Split`, fuelled for structural recursion (`cs.length + 1` always
suffices when the separator is non-empty). -/
def splitOnSubFuel (sep : List Char) : Nat → List Char → List (List Char)
  | 0, cs => [cs]
  | fuel + 1, cs =>
    match findSubChars sep cs with
    | none => [cs]
    | some i => cs.take i :: splitOnSubFuel sep fuel (cs.drop (i + sep.length))

def splitOnSub (sep cs : List Char) : List (List Char) :=
  splitOnSubFuel sep (cs.length + 1) cs

/-- The candidate-title separator scan of `inferPMVStudio` (src lines
410–417): first separator at a positive index whose cleaned left side is
non-empty. -/
def studioPrefixScan (cs : List Char) : List (List Char) → Option String
  | [] => none
  | sep :: more =>
    match findSubChars sep cs with
    | some idx =>
      if 0 < idx then
        let p := cleanStudioToken (String.mk (cs.take idx))
        if p ≠ "" then some p else studioPrefixScan cs more
      else studioPrefixScan cs more
    | none => studioPrefixScan cs more

/-- The `_-_` part scan of `inferPMVStudio` (src lines 424–438): at most the
first three parts; a part containing `pmv` (case-insensitively) wins, and a
non-empty first part wins. -/
def underscoreStudioScan : List (List Char) → Nat → Option String
  | [], _ => none
  | p :: rest, i =>
    if 3 ≤ i then none
    else
      let c := cleanStudioToken (String.mk p)
      if c = "" then underscoreStudioScan rest (i + 1)
      else if containsSubChars (lowerChars c.data) "pmv".data then some c
      else if i = 0 then some c
      else underscoreStudioScan rest (i + 1)

/-- Model of `inferPMVStudio` (src lines 409–450). -/
def inferPMVStudio (filename candidateTitle : String) : String :=
  match studioPrefixScan candidateTitle.data
      [" - ".data, " – ".data, " — ".data, "|".data] with
  | some p => p
  | none =>
    let raw := trimSpaceChars (stripExt filename.data)
    if raw = [] then ""
    else
      match (if containsSubChars raw "_-_".data then
          underscoreStudioScan (splitOnSub "_-_".data raw) 0 else none) with
      | some p => p
      | none =>
        match studioPrefixScan raw [" - ".data, " – ".data, " — ".data] with
        | some p => p
        | none => cleanStudioToken (String.mk raw)

end XbvrPmv

namespace XbvrPmv

/-! ## Search-query expansion (src/pkg/tasks/pmv_match.go, lines 263–333) -/

/-- Model of `strings.Join(xs, " ")`. -/
def joinSpaceStr (xs : List String) : String :=
  String.mk (joinSpaceChars (xs.map (fun x => x.data)))

/-- The `add` closure of `buildPMVSearchQueries`: whitespace-normalise, skip
empty and already-added queries (the output list doubles as the `added`
set). -/
def addQuery (st : List String) (q : String) : List String :=
  let q' := String.mk (joinSpaceChars (fieldsChars q.data))
  if q' = "" ∨ st.contains q' then st else st ++ [q']

/-- The broader noise set of `stripPMVSearchNoise` (src lines 317–323). -/
def searchNoiseSkip : List String :=
  ["1080p", "1440p", "2160p", "2880p", "4320p", "4k", "8k",
   "60fps", "30fps", "fps",
   "h264", "h265", "x264", "x265", "264", "265",
   "sbs", "tb", "lr", "vr",
   "upscale", "remaster"]

/-- Model of `stripPMVSearchNoise` (src lines 313–333). -/
def stripPMVSearchNoise (tokens : List String) : List String :=
  (tokens.map (fun t => String.mk (lowerChars (trimSpaceChars t.data)))).filter
    (fun t => t ≠ "" ∧ ¬searchNoiseSkip.contains t)

/-- The raw-filename delimiter variants of `buildPMVSearchQueries` (src lines
295–308): for each separator present in the extension-stripped filename, the
normalised joins of the parts after the first and after the second
occurrence. -/
def rawSepQueries (raw : List Char) (st : List String) : List (List Char) → List String
  | [] => st
  | sep :: more =>
    if containsSubChars raw sep then
      let parts := splitOnSub sep raw
      let st1 :=
        if 2 ≤ parts.length then
          addQuery st (normalizePMVQuery (joinSpaceStr ((parts.drop 1).map String.mk)))
        else st
      let st2 :=
        if 3 ≤ parts.length then
          addQuery st1 (normalizePMVQuery (joinSpaceStr ((parts.drop 2).map String.mk)))
        else st1
      rawSepQueries raw st2 more
    else rawSepQueries raw st more

/-- Model of `buildPMVSearchQueries` (src lines 263–311). -/
def buildPMVSearchQueries (filename baseQuery : String) : List String :=
  let st1 := addQuery [] baseQuery
  let baseTokens := (fieldsChars baseQuery.data).map String.mk
  let st2 :=
    if 2 ≤ baseTokens.length then addQuery st1 (joinSpaceStr (baseTokens.drop 1)) else st1
  let st3 :=
    if 3 ≤ baseTokens.length then
      addQuery st2 (joinSpaceStr (baseTokens.take (baseTokens.length - 1)))
    else st2
  let st4 :=
    if 4 ≤ baseTokens.length then
      addQuery st3 (joinSpaceStr ((baseTokens.drop 1).take (baseTokens.length - 2)))
    else st3
  let cleaned := stripPMVSearchNoise baseTokens
  let st5 := if cleaned.length ≠ 0 then addQuery st4 (joinSpaceStr cleaned) else st4
  let st6 :=
    if cleaned.length ≠ 0 ∧ 2 ≤ cleaned.length then
      addQuery st5 (joinSpaceStr (cleaned.drop 1))
    else st5
  let raw := trimSpaceChars (stripExt filename.data)
  if raw ≠ [] then
    rawSepQueries raw st6 ["_-_".data, " - ".data, " – ".data, " — ".data]
  else st6

end XbvrPmv

namespace XbvrPmv

/-! ## Database model (spec §3, §6)

The `models` package and gorm are collaborators that are not under `src/`.
Modelled from the spec: the *File registry* holds `{id, filename,
link-to-scene state}` plus the selection fields the batch query reads
(`type`, `volume_id`, `path`, `created_time`); the *Catalog store* holds
entries with `{title, studio, site label, source URLs, cover, known
filenames}` keyed by the external entry id, upserted by
`createOrUpdateEntry` and read back by `getEntry`.  Store calls are treated
as atomic black-box operations (spec §5); fallibility is injected through an
explicit fault record so that every failure path of the Go code is
reachable.  `created_at`/`added_date` timestamps and the action log are
outside the model (no claim reads them). -/

structure FileRec where
  id : Nat
  filename : String
  sceneID : Nat
  fileType : String
  volumeID : Nat
  path : String
  createdTime : Nat
deriving DecidableEq, Repr

structure SceneRec where
  id : Nat
  sceneID : String
  title : String
  studio : String
  site : String
  homepageURL : String
  membersURL : String
  coverURL : String
  filenamesArr : List String
deriving DecidableEq, Repr

structure DBState where
  files : List FileRec
  scenes : List SceneRec
  nextSceneNum : Nat
deriving DecidableEq, Repr

/-- Which collaborator calls fail, one flag per fallible step of
`MatchPMVFile`/`applyPMVMatch`. -/
structure DBFaults where
  findFileFails : Bool
  createFails : Bool
  getSceneFails : Bool
  updateDatesFails : Bool
  saveFileFails : Bool
deriving DecidableEq, Repr

def noFaults : DBFaults := ⟨false, false, false, false, false⟩

/-- The fields of `models.ScrapedScene` that `applyPMVMatch` populates. -/
structure ScrapedScene where
  sceneID : String
  scraperID : String
  sceneType : String
  title : String
  studio : String
  site : String
  homepageURL : String
  membersURL : String
  covers : List String
  filenames : List String
deriving DecidableEq, Repr

/-- Modelled from the spec: §6 `createOrUpdateEntry(entryID, title,
sourceURL, thumbnailURL, studio, filenames)` — upsert keyed by the external
entry id (`models.SceneCreateUpdateFromExternal` is not under `src/`). -/
def sceneCreateUpdateFromExternal (db : DBState) (ext : ScrapedScene) : DBState :=
  match db.scenes.find? (fun s => s.sceneID = ext.sceneID) with
  | some s =>
    let s' : SceneRec :=
      { s with
        title := ext.title
        studio := ext.studio
        site := ext.site
        homepageURL := ext.homepageURL
        membersURL := ext.membersURL
        coverURL := match ext.covers with | c :: _ => c | [] => s.coverURL }
    { db with scenes := db.scenes.map (fun t => if t.sceneID = ext.sceneID then s' else t) }
  | none =>
    { db with
      scenes := db.scenes ++
        [⟨db.nextSceneNum, ext.sceneID, ext.title, ext.studio, ext.site,
          ext.homepageURL, ext.membersURL,
          (match ext.covers with | c :: _ => c | [] => ""), ext.filenames⟩]
      nextSceneNum := db.nextSceneNum + 1 }

/-- Model of `applyPMVMatch` (src/pkg/tasks/pmv_match.go, lines 477–551):
create-or-update the custom catalog entry, read it back, touch the dates of a
freshly created entry, link the file, and append the filename to the entry's
known-filenames list.  Each store failure aborts at its step, keeping the
mutations already made. -/
def applyPMVMatch (faults : DBFaults) (db : DBState) (file : FileRec)
    (candidate : PMVMatchCandidate) : DBState × Except Unit String :=
  let sceneID := buildPMVCustomSceneID file.id
  let studio0 := inferPMVStudio file.filename candidate.title
  let studio := if studio0 = "" then "Custom" else studio0
  let sceneWasCreated := (db.scenes.find? (fun s => s.sceneID = sceneID)).isNone
  let thumb := String.mk (trimSpaceChars candidate.thumbnailURL.data)
  let ext : ScrapedScene :=
    ⟨sceneID, "custom", "VR", String.mk (trimSpaceChars candidate.title.data), studio,
      "CustomVR", String.mk (trimSpaceChars candidate.sceneURL.data),
      String.mk (trimSpaceChars candidate.sceneURL.data),
      (if thumb ≠ "" then [thumb] else []), [file.filename]⟩
  if faults.createFails then (db, .error ())
  else
    let db1 := sceneCreateUpdateFromExternal db ext
    if faults.getSceneFails then (db1, .error ())
    else
      match db1.scenes.find? (fun s => s.sceneID = sceneID) with
      | none => (db1, .error ())
      | some scene =>
        if sceneWasCreated ∧ faults.updateDatesFails then (db1, .error ())
        else if faults.saveFileFails then (db1, .error ())
        else
          let db2 : DBState :=
            { db1 with
              files := db1.files.map
                (fun f => if f.id = file.id then { f with sceneID := scene.id } else f) }
          let filenames := scene.filenamesArr
          let filenames' :=
            if filenames.contains file.filename then filenames
            else filenames ++ [file.filename]
          let db3 : DBState :=
            { db2 with
              scenes := db2.scenes.map
                (fun s => if s.sceneID = sceneID then { s with filenamesArr := filenames' } else s) }
          (db3, .ok scene.sceneID)

end XbvrPmv

namespace XbvrPmv

/-! ## Match orchestrator (src/pkg/tasks/pmv_match.go, lines 68–196) -/

/-- Model of `tasks.PMVMatchResult` (src lines 33–42). -/
structure PMVMatchResult where
  status : String
  fileID : Nat
  filename : String
  query : String
  autolinked : Bool
  matchedSceneID : String
  candidates : List PMVMatchCandidate
  message : String
deriving DecidableEq, Repr

/-- The error values `MatchPMVFile` can return. -/
inductive MatchErr where
  | fileIDRequired
  | dbFind
  | notFound (id : Nat)
  | alreadyMatched (id : Nat)
  | emptyQuery
  | search (e : SearchErr)
  | applyFailed
deriving DecidableEq, Repr

/-- The `(result, statusCode, err)` triple `MatchPMVFile` returns. -/
structure MatchOutcome where
  result : Option PMVMatchResult
  status : Nat
  err : Option MatchErr
deriving DecidableEq, Repr

/-- The full environment of one match: the HTTP oracle of the search client,
the HTTP oracle of the enrichment stage, and the store fault record. -/
structure MatchEnv where
  httpFetch : String → FetchOutcome
  sceneFetch : String → SceneFetchOutcome
  faults : DBFaults

def pmvMatchCandidateLimit : Int := 5

/-- Outcome of one pass over the search-query variants (the loop of src lines
104–118): the last attempt's candidates and error, and the query that broke
the loop with a non-empty result, if any. -/
structure SearchAttempt where
  candidates : List PMVHavenCandidate
  err : Option SearchErr
  used : Option String
deriving Repr

/-- The query-fallback loop (src lines 107–118): each attempt overwrites
`candidates`/`searchErr`; an error continues to the next variant, a non-empty
success breaks recording the used query, and the values of the last attempt
survive otherwise. -/
def searchQueryLoop (env : MatchEnv) : List String → SearchAttempt
  | [] => ⟨[], none, none⟩
  | [q] =>
    let r := searchPMVHaven ⟨env.httpFetch⟩ q pmvMatchCandidateLimit
    ⟨r.1, r.2, if r.2 = none ∧ r.1 ≠ [] then some q else none⟩
  | q :: rest =>
    let r := searchPMVHaven ⟨env.httpFetch⟩ q pmvMatchCandidateLimit
    if r.2 = none ∧ r.1 ≠ [] then ⟨r.1, r.2, some q⟩
    else searchQueryLoop env rest

/-- The per-candidate enrichment loop with its URL-keyed thumbnail cache (src
lines 135–161): cache hits refill an empty thumbnail; an enrichment failure
keeps the candidate and caches its previous thumbnail; a success replaces the
candidate and caches the new thumbnail. -/
def enrichLoop (env : MatchEnv) :
    List (String × String) → List PMVHavenCandidate → List PMVHavenCandidate
  | _, [] => []
  | cache, c :: rest =>
    match cache.find? (fun kv => kv.1 = c.sceneURL) with
    | some kv =>
      let c' :=
        if String.mk (trimSpaceChars c.thumbnailURL.data) = "" ∧ kv.2 ≠ ""
        then { c with thumbnailURL := kv.2 } else c
      c' :: enrichLoop env cache rest
    | none =>
      let prevThumb := String.mk (trimSpaceChars c.thumbnailURL.data)
      let er := enrichPMVHavenCandidateThumbnail ⟨env.sceneFetch⟩ c
      match er.2 with
      | some _ => c :: enrichLoop env ((c.sceneURL, prevThumb) :: cache) rest
      | none =>
        er.1 :: enrichLoop env
          ((c.sceneURL, String.mk (trimSpaceChars er.1.thumbnailURL.data)) :: cache) rest

/-- Assign 1-based ranks after the final ordering (src lines 170–172). -/
def assignRanks : Nat → List PMVMatchCandidate → List PMVMatchCandidate
  | _, [] => []
  | i, c :: rest => { c with rank := i } :: assignRanks (i + 1) rest

/-- How far `MatchPMVFile` gets before the dry-run/persist decision (src
lines 68–177): an early abort, the "no candidates" success, or a proposed
top candidate. -/
inductive MatchPrep where
  | abort (status : Nat) (e : MatchErr)
  | noCandidates (r : PMVMatchResult)
  | proposed (file : FileRec) (r : PMVMatchResult) (top : PMVMatchCandidate)
deriving Repr

/-- Everything `MatchPMVFile` does before `if dryRun` (src lines 68–177):
validate, normalize, search with query fallback, enrich, rank, and build the
result record. -/
def matchPMVPrep (env : MatchEnv) (db : DBState) (fileID : Nat) : MatchPrep :=
  if fileID = 0 then .abort 400 .fileIDRequired
  else if env.faults.findFileFails then .abort 500 .dbFind
  else
    match db.files.find? (fun f => f.id = fileID) with
    | none => .abort 404 (.notFound fileID)
    | some file =>
      if file.sceneID ≠ 0 then .abort 409 (.alreadyMatched fileID)
      else
        let query := normalizePMVQuery file.filename
        if query = "" then .abort 400 .emptyQuery
        else
          let sr := searchQueryLoop env (buildPMVSearchQueries file.filename query)
          match sr.err, sr.candidates with
          | some e, [] => .abort 424 (.search e)
          | _, candidates =>
            if candidates = [] then
              .noCandidates
                ⟨"ok", fileID, file.filename, query, false, "", [],
                  "no PMVHaven candidates found"⟩
            else
              let usedQuery := sr.used.getD query
              let enriched := enrichLoop env [] candidates
              let ranked := assignRanks 1 (sortCandidates (scorePMVCandidatesByText query enriched))
              match ranked with
              | [] =>
                -- Unreachable: scoring and sorting preserve the candidate
                -- count (the Go code would panic indexing `ranked[0]`).
                .noCandidates
                  ⟨"ok", fileID, file.filename, usedQuery, false, "", [],
                    "no PMVHaven candidates found"⟩
              | top :: rest =>
                .proposed file
                  ⟨"ok", fileID, file.filename, usedQuery, false,
                    buildPMVCustomSceneID fileID, top :: rest, ""⟩
                  top

/-- Model of `MatchPMVFile` (src lines 68–196): the prep stages followed by
the dry-run / persist decision. -/
def matchPMVFile (env : MatchEnv) (db : DBState) (fileID : Nat) (dryRun : Bool) :
    DBState × MatchOutcome :=
  match matchPMVPrep env db fileID with
  | .abort s e => (db, ⟨none, s, some e⟩)
  | .noCandidates r => (db, ⟨some r, 200, none⟩)
  | .proposed file r top =>
    if dryRun then
      (db, ⟨some { r with message := "dry run: best candidate found, no database changes applied" },
        200, none⟩)
    else
      match (applyPMVMatch env.faults db file top).2 with
      | .error _ => ((applyPMVMatch env.faults db file top).1, ⟨none, 500, some .applyFailed⟩)
      | .ok sid =>
        ((applyPMVMatch env.faults db file top).1,
          ⟨some { r with
              autolinked := true
              matchedSceneID := sid
              message := "file linked to custom PMV scene" }, 200, none⟩)

end XbvrPmv

namespace XbvrPmv

/-! ### Claims C1–C3 -/

/-- The environment of the below-threshold scenario: the search finds exactly
one candidate whose title shares no token with the query, enrichment fails in
transport, and no store call fails. -/
def c1Env : MatchEnv :=
  ⟨fun _ => .response 200 oneAnchorDoc, fun _ => .transportErr, noFaults⟩

/-- One unlinked video file whose normalized query (`"zzzz"`) is unrelated to
the candidate title, giving the baseline floor confidence `0.15`. -/
def c1DB : DBState := ⟨[⟨1, "zzzz.mp4", 0, "video", 0, "", 0⟩], [], 1⟩

/-- C1 (code bug): the orchestrator has no autolink confidence threshold.  At
a concrete input whose best confidence is the floor `0.15 = 3/20` — far below
the documented threshold `0.85 = 17/20` — the non-dry-run call still persists
the link (`autolinked`, registry mutated) instead of returning a successful
below-threshold response with nothing persisted. -/
theorem claim_C1_autolinks_below_threshold :
    ((matchPMVFile c1Env c1DB 1 false).2.result.map (fun r => r.autolinked)) = some true ∧
    ((matchPMVFile c1Env c1DB 1 false).2.result.map
      (fun r => r.candidates.map (fun c => c.confidence))) = some [mkRat 3 20] ∧
    mkRat 3 20 < mkRat 17 20 ∧
    (matchPMVFile c1Env c1DB 1 false).1 ≠ c1DB ∧
    (matchPMVFile c1Env c1DB 1 false).2.status = 200 := by
  decide

/-- The C2 environment: identical, except that linking the file
(`file.Save`) fails. -/
def c2Env : MatchEnv :=
  ⟨fun _ => .response 200 oneAnchorDoc, fun _ => .transportErr,
    ⟨false, false, false, false, true⟩⟩

/-- C2 counterexample: when `file.Save` fails after the catalog entry was
created, the match aborts with 500 — but the created entry is left behind
while the file stays unlinked: persistence is *not* atomic in that
direction. -/
theorem claim_C2_counterexample :
    (matchPMVFile c2Env c1DB 1 false).2.status = 500 ∧
    (matchPMVFile c2Env c1DB 1 false).2.err = some .applyFailed ∧
    ((matchPMVFile c2Env c1DB 1 false).1.scenes.map (fun s => s.sceneID)) =
      ["custom-pmv-1"] ∧
    ((matchPMVFile c2Env c1DB 1 false).1.files.map (fun f => f.sceneID)) = [0] := by
  decide

theorem applyPMVMatch_createFails (faults : DBFaults) (db : DBState) (file : FileRec)
    (cand : PMVMatchCandidate) (h : faults.createFails = true) :
    applyPMVMatch faults db file cand = (db, Except.error ()) := by
  unfold applyPMVMatch
  rw [if_pos h]

/-- C2 (amended): persistence is one-directional.  If creating/updating the
catalog entry fails, nothing is persisted — the store is unchanged, so the
file is not linked — and the file's match aborts with a 500 error.  (The
converse direction fails: a file-linking failure leaves the already
created/updated entry behind, as `claim_C2_counterexample` shows.) -/
theorem claim_C2_entry_failure_links_nothing :
    (∀ faults db file cand, faults.createFails = true →
      applyPMVMatch faults db file cand = (db, Except.error ())) ∧
    (∀ env db fileID, env.faults.createFails = true →
      (matchPMVFile env db fileID false).1 = db) ∧
    (∀ env db fileID file r top, matchPMVPrep env db fileID = .proposed file r top →
      env.faults.createFails = true →
      (matchPMVFile env db fileID false).2.status = 500 ∧
      (matchPMVFile env db fileID false).2.err = some .applyFailed ∧
      (matchPMVFile env db fileID false).2.result = none) := by
  refine ⟨applyPMVMatch_createFails, ?_, ?_⟩
  · intro env db fileID h
    cases hp : matchPMVPrep env db fileID with
    | abort s e => unfold matchPMVFile; rw [hp]
    | noCandidates r => unfold matchPMVFile; rw [hp]
    | proposed file r top =>
      unfold matchPMVFile
      rw [hp]
      have ha := applyPMVMatch_createFails env.faults db file top h
      simp [ha]
  · intro env db fileID file r top hp h
    unfold matchPMVFile
    rw [hp]
    have ha := applyPMVMatch_createFails env.faults db file top h
    simp [ha]

/-- Faults where only entry creation/update fails. -/
def c2wFaults : DBFaults := ⟨false, true, false, false, false⟩

/-- The C2-witness environment: search succeeds, entry creation fails. -/
def c2wEnv : MatchEnv :=
  ⟨fun _ => .response 200 oneAnchorDoc, fun _ => .transportErr, c2wFaults⟩

/-- A scored candidate for the C2 witness. -/
def c2wCand : PMVMatchCandidate :=
  ⟨1, "673a8cccaa8d005d3a4d0ae8", "Gooning Is Healthy",
    "https://pmvhaven.com/video/gooning-is-healthy_673a8cccaa8d005d3a4d0ae8",
    "", mkRat 3 20, "baseline text similarity"⟩

theorem claim_C2_witness :
    applyPMVMatch c2wFaults c1DB ⟨1, "zzzz.mp4", 0, "video", 0, "", 0⟩ c2wCand =
      (c1DB, Except.error ()) ∧
    (matchPMVFile c2wEnv c1DB 1 false).1 = c1DB := by
  obtain ⟨h1, h2, -⟩ := claim_C2_entry_failure_links_nothing
  exact ⟨h1 c2wFaults c1DB _ c2wCand rfl, h2 c2wEnv c1DB 1 rfl⟩

/-- C3: dry-run never touches the file registry or the catalog store, and
whenever the non-dry-run call on the same inputs returns a result, the dry-run
call returns one with the same candidate list and the same used query. -/
theorem claim_C3_dry_run_frame_and_data (env : MatchEnv) (db : DBState) (fileID : Nat) :
    (matchPMVFile env db fileID true).1 = db ∧
    (∀ r2, (matchPMVFile env db fileID false).2.result = some r2 →
      ∃ r1, (matchPMVFile env db fileID true).2.result = some r1 ∧
        r1.candidates = r2.candidates ∧ r1.query = r2.query) := by
  cases hp : matchPMVPrep env db fileID with
  | abort s e =>
    unfold matchPMVFile
    rw [hp]
    exact ⟨rfl, fun r2 h => by cases h⟩
  | noCandidates r =>
    unfold matchPMVFile
    rw [hp]
    exact ⟨rfl, fun r2 h => ⟨r, rfl, by cases h; exact ⟨rfl, rfl⟩⟩⟩
  | proposed file r top =>
    unfold matchPMVFile
    rw [hp]
    refine ⟨rfl, ?_⟩
    intro r2 h
    simp only [Bool.false_eq_true, if_false, if_true] at h ⊢
    cases ha : (applyPMVMatch env.faults db file top).2 with
    | error e =>
      rw [ha] at h
      cases h
    | ok sid =>
      rw [ha] at h
      cases h
      exact ⟨_, rfl, rfl, rfl⟩

/-- An environment whose single search variant succeeds with an empty
document: the "no candidates" 200 path. -/
def c3Env : MatchEnv :=
  ⟨fun _ => .response 200 ⟨[], [[], [], [], [], [], []], []⟩,
    fun _ => .transportErr, noFaults⟩

/-- The result of the "no candidates" path for `c1DB`'s file. -/
def c3Result : PMVMatchResult :=
  ⟨"ok", 1, "zzzz.mp4", "zzzz", false, "", [], "no PMVHaven candidates found"⟩

theorem claim_C3_witness :
    (matchPMVFile c3Env c1DB 1 true).1 = c1DB ∧
    ((matchPMVFile c3Env c1DB 1 true).2.result.map (fun r => r.candidates)) =
      some c3Result.candidates := by
  obtain ⟨h1, h2⟩ := claim_C3_dry_run_frame_and_data c3Env c1DB 1
  have hf : (matchPMVFile c3Env c1DB 1 false).2.result = some c3Result := by decide
  obtain ⟨r1, hr1, hcand, hq⟩ := h2 c3Result hf
  refine ⟨h1, ?_⟩
  rw [hr1]
  simp [hcand]

end XbvrPmv

namespace XbvrPmv

/-! ### Claim C10 -/

theorem applyPMVMatch_ok_sid (faults : DBFaults) (db : DBState) (file : FileRec)
    (cand : PMVMatchCandidate) (sid : String)
    (h : (applyPMVMatch faults db file cand).2 = .ok sid) :
    sid = buildPMVCustomSceneID file.id := by
  simp only [applyPMVMatch] at h
  split at h
  · simp at h
  · split at h
    · simp at h
    · split at h
      · simp at h
      · rename_i scene heq
        split at h
        · simp at h
        · split at h
          · simp at h
          · simp only at h
            cases h
            have hpred := List.find?_some heq
            simpa using hpred

theorem matchPMVPrep_noCandidates_inv (env : MatchEnv) (db : DBState) (fileID : Nat)
    (r0 : PMVMatchResult) (h : matchPMVPrep env db fileID = .noCandidates r0) :
    r0.matchedSceneID = "" := by
  simp only [matchPMVPrep] at h
  split at h
  · cases h
  · split at h
    · cases h
    · split at h
      · cases h
      · split at h
        · cases h
        · split at h
          · cases h
          · split at h
            · cases h
            · split at h
              · cases h; rfl
              · split at h
                · cases h; rfl
                · cases h

theorem matchPMVPrep_proposed_inv (env : MatchEnv) (db : DBState) (fileID : Nat)
    (file : FileRec) (r : PMVMatchResult) (top : PMVMatchCandidate)
    (h : matchPMVPrep env db fileID = .proposed file r top) :
    file.id = fileID ∧ r.matchedSceneID = buildPMVCustomSceneID fileID := by
  simp only [matchPMVPrep] at h
  split at h
  · cases h
  · split at h
    · cases h
    · split at h
      · cases h
      · rename_i file0 heq
        split at h
        · cases h
        · split at h
          · cases h
          · split at h
            · cases h
            · split at h
              · cases h
              · split at h
                · cases h
                · cases h
                  have hpred := List.find?_some heq
                  simp only [decide_eq_true_eq] at hpred
                  exact ⟨hpred, rfl⟩

/-- C10: a successful (or dry-run) match's `matchedSceneID`, when set, is
always `"custom-pmv-" ++ decimal file ID` — a pure function of the file ID
alone — and that builder is injective, so two distinct files are never linked
to the same created catalog entry. -/
theorem claim_C10_scene_id_pure_injective :
    (∀ env db fileID dryRun r,
      (matchPMVFile env db fileID dryRun).2.result = some r →
      r.matchedSceneID = "" ∨ r.matchedSceneID = buildPMVCustomSceneID fileID) ∧
    (∀ m n, buildPMVCustomSceneID m = buildPMVCustomSceneID n → m = n) := by
  constructor
  · intro env db fileID dryRun r h
    cases hp : matchPMVPrep env db fileID with
    | abort s e =>
      unfold matchPMVFile at h
      rw [hp] at h
      cases h
    | noCandidates r0 =>
      unfold matchPMVFile at h
      rw [hp] at h
      cases h
      exact Or.inl (matchPMVPrep_noCandidates_inv env db fileID _ hp)
    | proposed file r0 top =>
      obtain ⟨hfid, hmid⟩ := matchPMVPrep_proposed_inv env db fileID file r0 top hp
      unfold matchPMVFile at h
      rw [hp] at h
      dsimp only at h
      by_cases hd : dryRun = true
      · rw [if_pos hd] at h
        cases h
        exact Or.inr hmid
      · rw [if_neg hd] at h
        cases ha : (applyPMVMatch env.faults db file top).2 with
        | error e =>
          rw [ha] at h
          cases h
        | ok sid =>
          rw [ha] at h
          cases h
          exact Or.inr (by
            have := applyPMVMatch_ok_sid env.faults db file top sid ha
            rw [this, hfid])
  · exact buildPMVCustomSceneID_injective

/-- The dry-run result of the `c1Env`/`c1DB` scenario. -/
def c10DryResult : PMVMatchResult :=
  ⟨"ok", 1, "zzzz.mp4", "zzzz", false, "custom-pmv-1",
    [⟨1, "673a8cccaa8d005d3a4d0ae8", "Gooning Is Healthy",
      "https://pmvhaven.com/video/gooning-is-healthy_673a8cccaa8d005d3a4d0ae8",
      "https://video.pmvhaven.com/thumbnails/673a8cccaa8d005d3a4d0ae8/thumb_lg.webp",
      mkRat 3 20, "baseline text similarity"⟩],
    "dry run: best candidate found, no database changes applied"⟩

theorem claim_C10_witness :
    (c10DryResult.matchedSceneID = "" ∨
      c10DryResult.matchedSceneID = buildPMVCustomSceneID 1) ∧
    (3 : Nat) = 3 := by
  obtain ⟨h1, h2⟩ := claim_C10_scene_id_pure_injective
  exact ⟨h1 c1Env c1DB 1 true c10DryResult (by decide), h2 3 3 (by decide)⟩

end XbvrPmv

namespace XbvrPmv

/-! ## Batch scheduler (src/pkg/tasks/pmv_match.go, lines 598–747)

The worker pool runs `MatchPMVFile` once per selected file and collects each
outcome into the slot of its original index; the model linearises the pool
(one `MatchPMVFile` per file, in input order), which preserves the result
ordering and every per-item value the counters read.  The DB-query error
path of the file selection (a gorm failure) is not modelled. -/

structure PMVMatchBatchRequest where
  dryRun : Bool
  limit : Int
  concurrency : Int
  volumeID : Nat
  pathPfx : String
deriving Repr

/-- Model of `normalizePMVBatchLimit` (src lines 729–737). -/
def normalizePMVBatchLimit (limit : Int) : Int :=
  if limit ≤ 0 then 50 else if 500 < limit then 500 else limit

/-- Model of `normalizePMVBatchConcurrency` (src lines 739–747). -/
def normalizePMVBatchConcurrency (c : Int) : Int :=
  if c ≤ 0 then 10 else if 50 < c then 50 else c

structure PMVMatchBatchItem where
  fileID : Nat
  filename : String
  statusCode : Nat
  errMsg : Option MatchErr
  result : Option PMVMatchResult
deriving DecidableEq, Repr

structure PMVMatchBatchResult where
  scanned : Nat
  matched : Nat
  skippedAlreadyMatch : Nat
  errors : Nat
  results : List PMVMatchBatchItem
deriving DecidableEq, Repr

/-- The eligible-file query (src lines 605–614): unlinked video files,
optionally filtered by volume and path prefix, newest first, capped at the
normalised limit. -/
def selectBatchFiles (db : DBState) (req : PMVMatchBatchRequest) : List FileRec :=
  let base := db.files.filter (fun f =>
    f.fileType = "video" ∧ f.sceneID = 0 ∧
    (req.volumeID = 0 ∨ f.volumeID = req.volumeID) ∧
    (trimSpaceChars req.pathPfx.data = [] ∨
      (trimSpaceChars req.pathPfx.data).isPrefixOf f.path.data))
  (base.insertionSort (fun a b => b.createdTime ≤ a.createdTime)).take
    (normalizePMVBatchLimit req.limit).toNat

/-- The worker body (src lines 644–666), linearised: one
`MatchPMVFile` per file in input order, each item carrying the outcome of
its own file. -/
def runBatchFiles (env : MatchEnv) (dryRun : Bool) :
    DBState → List FileRec → DBState × List PMVMatchBatchItem
  | db, [] => (db, [])
  | db, f :: rest =>
    let o := (matchPMVFile env db f.id dryRun).2
    let sc := if o.status = 0 then 500 else o.status
    let item : PMVMatchBatchItem :=
      match o.err with
      | some e => ⟨f.id, f.filename, sc, some e, none⟩
      | none => ⟨f.id, f.filename, sc, none, o.result⟩
    let r := runBatchFiles env dryRun (matchPMVFile env db f.id dryRun).1 rest
    (r.1, item :: r.2)

/-- The counter loop (src lines 686–702): per item, exactly one of — skipped
(error with 409), errors (any other error, or a missing result), matched
(autolinked) — or none of the counters (successful without autolink). -/
def batchCounters : List PMVMatchBatchItem → Nat × Nat × Nat
  | [] => (0, 0, 0)
  | item :: rest =>
    let r := batchCounters rest
    if item.errMsg.isSome then
      if item.statusCode = 409 then (r.1, r.2.1 + 1, r.2.2) else (r.1, r.2.1, r.2.2 + 1)
    else
      match item.result with
      | none => (r.1, r.2.1, r.2.2 + 1)
      | some res => if res.autolinked then (r.1 + 1, r.2.1, r.2.2) else r

/-- Model of `MatchPMVUnmatchedFiles` (src lines 598–705). -/
def matchPMVUnmatchedFiles (env : MatchEnv) (db : DBState) (req : PMVMatchBatchRequest) :
    DBState × PMVMatchBatchResult × Nat :=
  let files := selectBatchFiles db req
  let rb := runBatchFiles env req.dryRun db files
  let cnt := batchCounters rb.2
  (rb.1, ⟨files.length, cnt.1, cnt.2.1, cnt.2.2, rb.2⟩, 200)

/-- A per-item success without autolink: no error, a result, not
autolinked. -/
def isSuccessNonAutolinked (i : PMVMatchBatchItem) : Bool :=
  i.errMsg.isNone && (match i.result with | some r => !r.autolinked | none => false)

theorem batchCounters_partition : ∀ items : List PMVMatchBatchItem,
    (batchCounters items).1 + (batchCounters items).2.1 + (batchCounters items).2.2 +
      (items.filter isSuccessNonAutolinked).length = items.length
  | [] => rfl
  | item :: rest => by
    have ih := batchCounters_partition rest
    unfold batchCounters
    rcases he : item.errMsg with _ | e
    · rcases hr : item.result with _ | res
      · simp only [he, Option.isSome_none, Bool.false_eq_true, if_false, hr,
          List.filter_cons, isSuccessNonAutolinked, Option.isNone_none, Bool.true_and,
          List.length_cons]
        omega
      · rcases Bool.eq_false_or_eq_true res.autolinked with hauto | hauto
        · simp only [he, Option.isSome_none, Bool.false_eq_true, if_false, hr, hauto,
            if_true, List.filter_cons, isSuccessNonAutolinked, Option.isNone_none,
            Bool.true_and, Bool.not_true, List.length_cons]
          omega
        · simp only [he, Option.isSome_none, Bool.false_eq_true, if_false, hr, hauto,
            List.filter_cons, isSuccessNonAutolinked, Option.isNone_none,
            Bool.true_and, Bool.not_false, if_true, List.length_cons]
          omega
    · by_cases h409 : item.statusCode = 409
      · simp only [he, Option.isSome_some, if_true, h409, List.filter_cons,
          isSuccessNonAutolinked, Option.isNone_some, Bool.false_and,
          Bool.false_eq_true, if_false, List.length_cons]
        omega
      · simp only [he, Option.isSome_some, if_true, if_neg h409, List.filter_cons,
          isSuccessNonAutolinked, Option.isNone_some, Bool.false_and,
          Bool.false_eq_true, if_false, List.length_cons]
        omega

theorem runBatchFiles_length (env : MatchEnv) (dryRun : Bool) :
    ∀ (db : DBState) (files : List FileRec),
      (runBatchFiles env dryRun db files).2.length = files.length
  | _, [] => rfl
  | db, f :: rest => by
    unfold runBatchFiles
    simp only [List.length_cons]
    rw [runBatchFiles_length env dryRun _ rest]

/-- C9: for every batch run, `scanned` equals the number of selected files
(one result item per file), and
`matched + skippedAlreadyMatched + errors + successful-non-autolinked = scanned`:
every per-file outcome lands in exactly one bucket. -/
theorem claim_C9_batch_counters (env : MatchEnv) (db : DBState)
    (req : PMVMatchBatchRequest) :
    (matchPMVUnmatchedFiles env db req).2.1.scanned = (selectBatchFiles db req).length ∧
    (matchPMVUnmatchedFiles env db req).2.1.scanned =
      (matchPMVUnmatchedFiles env db req).2.1.results.length ∧
    (matchPMVUnmatchedFiles env db req).2.1.matched +
      (matchPMVUnmatchedFiles env db req).2.1.skippedAlreadyMatch +
      (matchPMVUnmatchedFiles env db req).2.1.errors +
      ((matchPMVUnmatchedFiles env db req).2.1.results.filter
        isSuccessNonAutolinked).length =
      (matchPMVUnmatchedFiles env db req).2.1.scanned := by
  unfold matchPMVUnmatchedFiles
  refine ⟨rfl, ?_, ?_⟩
  · exact (runBatchFiles_length env req.dryRun db (selectBatchFiles db req)).symm
  · rw [batchCounters_partition (runBatchFiles env req.dryRun db (selectBatchFiles db req)).2,
      runBatchFiles_length env req.dryRun db (selectBatchFiles db req)]

end XbvrPmv
